import Mathlib

/-!
Shallow embedding of the SQL-compilation engine of `pgbulk` (src/pgbulk/core.py)
and verification of properties of its field selection, row sequencing, value
extraction, statement compilation and result materialization.

Values, fields and records are modelled at the storage level; the external
collaborators (the ORM's per-column serialization `get_db_prep_save`, the
expression compiler that renders `UpdateField.expression` to a SQL fragment,
and the database driver that executes a statement) are modelled as opaque
function parameters, exactly as the spec treats them.
-/

set_option maxRecDepth 4000

namespace PgBulk

/-- A storage-level value, as handed to the driver as a positional argument.
`timezone.now()` results are also values of this type. -/
inductive Val where
  | null
  | int (n : Int)
  | str (s : String)
deriving DecidableEq

/-- Ordering on storage values as used by Python's `sorted` on sort keys.
Python compares values of one type with that type's order; the embedding
extends this to a total order (null < int < str) so the sort is defined on
every batch. -/
def Val.le : Val → Val → Bool
  | .null, _ => true
  | .int _, .null => false
  | .int a, .int b => decide (a ≤ b)
  | .int _, .str _ => true
  | .str _, .null => false
  | .str _, .int _ => false
  | .str a, .str b => decide (a ≤ b)

/-- Lexicographic ordering on tuples of storage values (Python tuple order). -/
def listValLe : List Val → List Val → Bool
  | [], _ => true
  | _ :: _, [] => false
  | a :: as', b :: bs' =>
    if Val.le a b && !(Val.le b a) then true
    else if Val.le b a && !(Val.le a b) then false
    else listValLe as' bs'

/-- A column descriptor as the engine reads it off the ORM: logical `name`,
attribute name `attname`, storage `column` name, storage type tag `dbType`
(`field.db_type(connection)`), and the flags consulted by the engine.
`isAutoField` models `isinstance(field, models.AutoField)`. -/
structure Field where
  name : String
  attname : String
  column : String
  dbType : String
  primaryKey : Bool
  autoNowAdd : Bool
  autoNow : Bool
  generated : Bool
  concrete : Bool
  isAutoField : Bool
deriving DecidableEq

/-- A table descriptor: `model._meta.db_table`, `model._meta.fields`,
`model._meta.pk` (optional, bulk update requires it). -/
structure Model where
  dbTable : String
  fields : List Field
  pk : Option Field
deriving DecidableEq

/-- A record (model instance): attribute name to value. `getattr` on a model
instance always yields a value (missing attributes read as null here). -/
structure Rec where
  attrs : List (String × Val)
deriving DecidableEq

/-- An update field: a column reference optionally paired with an expression.
The `expression` is carried as the SQL fragment the external expression
compiler (`cursor.mogrify(*expr.as_sql(...))`) renders it to, since the engine
treats that output as an opaque literal fragment. -/
structure UpdField where
  name : String
  expression : Option String
deriving DecidableEq

/-- The `returning` argument: `False`, `True`, or a list of column names. -/
inductive Returning where
  | no
  | all
  | cols (cs : List String)
deriving DecidableEq

/-- Python truthiness of the `returning` argument (`if returning`). -/
def Returning.truthy : Returning → Bool
  | .no => false
  | .all => true
  | .cols cs => !cs.isEmpty

/-- A result row materialized from the cursor: the synthesized `status_`
column (upsert only; empty string for bulk update rows) plus the returned
column name/value pairs. -/
structure Row where
  status_ : String
  vals : List (String × Val)
deriving DecidableEq

/-- A raw row as the storage engine produces it for a returning upsert: the
system row-version marker `xmax` (zero exactly for rows inserted by the
current statement) plus the returned columns. -/
structure RawRow where
  xmax : Nat
  vals : List (String × Val)
deriving DecidableEq

/-- The synchronous errors the engine can raise before executing a statement:
`KeyError` from the field-dict lookup in `_get_update_fields`,
`FieldDoesNotExist` from `model._meta.get_field`, `ValueError` from the
missing-primary-key check in `_update`, `AttributeError` from `obj.pk` when
the table has no primary-key column. These are the spec's
`ConfigurationError` category. -/
inductive PgError where
  | keyError (k : String)
  | fieldDoesNotExist (k : String)
  | valueError
  | attributeError
deriving DecidableEq

deriving instance DecidableEq for Except

/-- `True` on `Except.ok`. -/
def isOkE : Except PgError α → Bool
  | .ok _ => true
  | .error _ => false

/-- Effectful map over a list, stopping at the first error: the embedding of a
Python list comprehension whose body can raise. -/
def mapE (f : α → Except PgError β) : List α → Except PgError (List β)
  | [] => .ok []
  | x :: xs =>
    match f x with
    | .error e => .error e
    | .ok y =>
      match mapE f xs with
      | .error e => .error e
      | .ok ys => .ok (y :: ys)

/-- Python's `enumerate` starting at `k`. -/
def enumFromK (k : Nat) : List α → List (Nat × α)
  | [] => []
  | x :: xs => (k, x) :: enumFromK (k + 1) xs

/-- Python's `enumerate`. -/
def enumK (l : List α) : List (Nat × α) := enumFromK 0 l

/-- Python's `sep.join(parts)`. -/
def joinSep (sep : String) : List String → String
  | [] => ""
  | [x] => x
  | x :: y :: xs => x ++ sep ++ joinSep sep (y :: xs)

/-- Python's `itertools.chain(*rows)` / repeated `list.extend`. -/
def flattenL : List (List α) → List α
  | [] => []
  | x :: xs => x ++ flattenL xs

/-- Identifier quoting (`_quote`): models psycopg's
`quote_ident`/`escape_identifier` on identifiers free of embedded quotes. -/
def quoteIdent (s : String) : String := "\"" ++ s ++ "\""

/-- A single-quoted SQL string literal. -/
def sqLit (s : String) : String := "\x27" ++ s ++ "\x27"

/-- Dict update preserving key positions: `d[k] = v` on an insertion-ordered
dict represented as an association list. -/
def assocUpdate (l : List (String × β)) (k : String) (v : β) : List (String × β) :=
  match l with
  | [] => [(k, v)]
  | (k', v') :: rest => if k' = k then (k, v) :: rest else (k', v') :: assocUpdate rest k v

/-- Dict lookup on an insertion-ordered association list. -/
def lookupA (l : List (String × β)) (k : String) : Option β :=
  (l.find? (fun p => p.1 == k)).map (·.2)

/-- `getattr(obj, attname)`. -/
def getattrR (r : Rec) (a : String) : Val :=
  ((r.attrs.find? (fun p => p.1 == a)).map (·.2)).getD .null

/-- `setattr(obj, attname, v)` (functional: returns the updated record). -/
def setattrR (r : Rec) (a : String) (v : Val) : Rec :=
  ⟨assocUpdate r.attrs a v⟩

/-- `_model_fields`: the fields of a model, excluding generated and
non-concrete ones. -/
def modelFields (m : Model) : List Field :=
  m.fields.filter (fun f => !f.generated && f.concrete)

/-- `model._meta.get_field(name)`: Django looks fields up by `name` (not by
`attname`); an unknown name raises `FieldDoesNotExist`. -/
def getField (m : Model) (name : String) : Option Field :=
  m.fields.find? (fun f => f.name == name)

/-- `model._meta.get_field(name)` as a fallible computation. -/
def getFieldE (m : Model) (name : String) : Except PgError Field :=
  match getField m name with
  | some f => .ok f
  | none => .error (.fieldDoesNotExist name)

/-- `model._meta.get_field(name).column`. -/
def colOf (m : Model) (name : String) : Except PgError String :=
  match getField m name with
  | some f => .ok f.column
  | none => .error (.fieldDoesNotExist name)

/-- The dict `{**{f.attname: f}, **{f.name: f}}` over `_model_fields(model)`
built in `_get_update_fields`: a name-keyed entry overrides an attname-keyed
one. -/
def fieldsDict (m : Model) (k : String) : Option Field :=
  match (modelFields m).find? (fun f => f.name == k) with
  | some f => some f
  | none => (modelFields m).find? (fun f => f.attname == k)

/-- The filtering comprehension of `_get_update_fields`: keeps a requested
entry iff it is not excluded and its field (looked up in the fields dict,
raising `KeyError` when absent) is neither `auto_now_add` nor a primary key.
The conditions short-circuit exactly as in Python: an excluded entry is
dropped without being looked up. -/
def filterUpdateFields (m : Model) (exclude : List String) :
    List UpdField → Except PgError (List UpdField)
  | [] => .ok []
  | uf :: rest =>
    if exclude.contains uf.name then filterUpdateFields m exclude rest
    else
      match fieldsDict m uf.name with
      | none => .error (.keyError uf.name)
      | some f =>
        if !f.autoNowAdd && !f.primaryKey then
          match filterUpdateFields m exclude rest with
          | .error e => .error e
          | .ok res => .ok (uf :: res)
        else filterUpdateFields m exclude rest

/-- `_get_update_fields`: `to_update` defaults to all `_model_fields`
attnames, then the exclusion/flag filter is applied. -/
def getUpdateFields (m : Model) (toUpdate : Option (List UpdField))
    (exclude : List String) : Except PgError (List UpdField) :=
  let tu := toUpdate.getD ((modelFields m).map (fun f => ⟨f.attname, none⟩))
  filterUpdateFields m exclude tu

/-- The attnames of the `auto_now` / `auto_now_add` fields
(`auto_field_names` in `_fill_auto_fields`). -/
def autoFieldNames (m : Model) : List String :=
  ((modelFields m).filter (fun f => f.autoNow || f.autoNowAdd)).map (fun f => f.attname)

/-- The inner loop of `_fill_auto_fields` on one record: set every auto
field to `now`. -/
def fillOne (m : Model) (now : Val) (o : Rec) : Rec :=
  (autoFieldNames m).foldl (fun acc a => setattrR acc a now) o

/-- `_fill_auto_fields`: reads the clock once (`now = timezone.now()`, the
`k`-th reading of the ambient clock) and stores that single value in every
auto field of every record; returns the records and the advanced clock
position. -/
def fillAutoFields (m : Model) (clock : Nat → Val) (k : Nat) (objs : List Rec) :
    List Rec × Nat :=
  let now := clock k
  (objs.map (fillOne m now), k + 1)

/-- Stable insertion of `x` into `s`: `x` goes in front of the first element
whose key is not smaller, so an element equal in key to earlier ones stays
behind them. -/
def insertSorted (le : κ → κ → Bool) (key : α → κ) (x : α) : List α → List α
  | [] => [x]
  | y :: ys =>
    if le (key x) (key y) then x :: y :: ys
    else y :: insertSorted le key x ys

/-- The embedding of Python's `sorted(objs, key=key)`: the unique stable
ascending rearrangement under the total preorder `le` on keys. -/
def sortByKey (le : κ → κ → Bool) (key : α → κ) : List α → List α
  | [] => []
  | x :: xs => insertSorted le key x (sortByKey le key xs)

/-- The sort key of `_sort_by_unique_fields`: the tuple of storage literals
(`_get_field_db_val`, i.e. `get_db_prep_save`, modelled by `prep`) of the
model fields whose attname is among `unique_fields`, in model field order. -/
def uniqueSortKey (m : Model) (prep : Field → Val → Val) (uniqueFields : List String)
    (o : Rec) : List Val :=
  ((modelFields m).filter (fun f => uniqueFields.contains f.attname)).map
    (fun f => prep f (getattrR o f.attname))

/-- `_sort_by_unique_fields`: stable sort of the batch by the tuple of
storage-literal values of the unique fields. -/
def sortByUniqueFields (m : Model) (prep : Field → Val → Val) (objs : List Rec)
    (uniqueFields : List String) : List Rec :=
  sortByKey listValLe (uniqueSortKey m prep uniqueFields) objs

/-- The sort in `_update`: `sorted(model_objs, key=lambda obj: obj.pk)` —
keyed by the raw primary-key attribute value, not its storage literal. -/
def sortObjsByPk (pkf : Field) (objs : List Rec) : List Rec :=
  sortByKey Val.le (fun o => getattrR o pkf.attname) objs

/-- The `sorted(model_objs, key=lambda obj: obj.pk)` line including its error
behaviour: with no primary-key column, `obj.pk` raises `AttributeError` for
the first record (never reached on an empty batch, since `sorted` does not
invoke the key function there). -/
def sortByPkE (m : Model) (objs : List Rec) : Except PgError (List Rec) :=
  match m.pk with
  | some pkf => .ok (sortObjsByPk pkf objs)
  | none => if objs.isEmpty then .ok [] else .error .attributeError

/-- `_get_values_for_row`: the storage literal of every selected field of one
record, in field order. -/
def getValuesForRow (prep : Field → Val → Val) (o : Rec) (allFields : List Field) :
    List Val :=
  allFields.map (fun f => prep f (getattrR o f.attname))

/-- The parenthesized placeholder group emitted by `_get_values_for_rows` for
row `i`: the first row's placeholders each carry the column's storage-type
cast, later rows are untyped. -/
def upsertRowTemplate (allFields : List Field) (i : Nat) : String :=
  if i = 0 then
    "(" ++ joinSep ", " (allFields.map (fun f => "%s::" ++ f.dbType)) ++ ")"
  else
    "(" ++ joinSep ", " (allFields.map (fun _ => "%s")) ++ ")"

/-- `_get_values_for_rows`: one placeholder group per record plus the flat
positional argument list. -/
def getValuesForRows (prep : Field → Val → Val) (objs : List Rec)
    (allFields : List Field) : List String × List Val :=
  ((enumK objs).map (fun p => upsertRowTemplate allFields p.1),
   flattenL (objs.map (fun o => getValuesForRow prep o allFields)))

/-- `_get_returning_sql`: empty unless returning was requested truthy;
`returning=True` expands to all `_model_fields` columns; the upsert variant
appends the synthesized `status_` classification column. -/
def getReturningSql (returning : Returning) (m : Model) (includeStatus : Bool) :
    String :=
  let cols : List String :=
    match returning with
    | .all => (modelFields m).map (fun f => f.column)
    | .cols cs => cs
    | .no => []
  if cols.isEmpty then ""
  else
    let table := quoteIdent m.dbTable
    let base := joinSep ", " (cols.map (fun c => table ++ "." ++ quoteIdent c))
    let base :=
      if includeStatus then
        base ++ ", CASE WHEN xmax = 0 THEN " ++ sqLit "c" ++ " ELSE " ++ sqLit "u"
          ++ " END AS status_"
      else base
    "RETURNING " ++ base

/-- The `update_fields_expressions` dict of `_get_update_fields_sql`: each
column first mapped to `alias.col`, then overridden by the compiled
expression fragment of any expression-valued update field. -/
def withExprsOf (aliasName : String) (fields : List UpdField) (cols : List String) :
    List (String × String) :=
  (fields.zip cols).foldl
    (fun acc p =>
      match p.1.expression with
      | some frag => assocUpdate acc p.2 frag
      | none => acc)
    (cols.foldl (fun acc col => assocUpdate acc col (aliasName ++ "." ++ quoteIdent col)) [])

/-- The SET list of `_get_update_fields_sql`. -/
def setSqlOf (cols : List String) (withExprs : List (String × String)) : String :=
  joinSep ", "
    (cols.map (fun col => quoteIdent col ++ " = " ++ (lookupA withExprs col).getD ""))

/-- The `IS DISTINCT FROM` change predicate of `_get_update_fields_sql`. -/
def ignoreSqlOf (m : Model) (ignoreUnchanged : Bool) (cols : List String)
    (withExprs : List (String × String)) : String :=
  if ignoreUnchanged && !cols.isEmpty then
    "((" ++ joinSep ", " (cols.map (fun col => quoteIdent m.dbTable ++ "." ++ quoteIdent col))
      ++ ") IS DISTINCT FROM (" ++ joinSep ", " (withExprs.map (fun p => p.2)) ++ "))"
  else ""

/-- `_get_update_fields_sql`: the SET list assigning each update column from
`alias`, with expression-valued update fields substituted as their compiled
literal fragments, and (when `ignore_unchanged` and there are columns) the
null-safe `IS DISTINCT FROM` change predicate. -/
def getUpdateFieldsSql (m : Model) (fields : List UpdField) (aliasName : String)
    (ignoreUnchanged : Bool) : Except PgError (String × String) :=
  match mapE (fun uf => colOf m uf.name) fields with
  | .error e => .error e
  | .ok cols =>
    .ok (setSqlOf cols (withExprsOf aliasName fields cols),
         ignoreSqlOf m ignoreUnchanged cols (withExprsOf aliasName fields cols))

/-- The conflict arm of `_get_upsert_sql`: `DO NOTHING` exactly when there
are no update columns, else `DO UPDATE SET`. -/
def onConflictSql (updateDbCols : List String) (updateFieldsSql ignoreUnchangedSql : String) :
    String :=
  if updateDbCols.isEmpty then "DO NOTHING"
  else "DO UPDATE SET " ++ updateFieldsSql ++ " " ++ ignoreUnchangedSql

/-- `_get_upsert_sql`: assembles
`INSERT INTO t (cols) VALUES groups ON CONFLICT (unique) arm RETURNING ...`
and the flat argument list. The insert-column set is every `_model_fields`
entry except auto-increment fields whose column is not in the uniqueness
constraint. -/
def getUpsertSql (m : Model) (prep : Field → Val → Val) (objs : List Rec)
    (uniqueFields : List String) (updateFields : List UpdField)
    (returning : Returning) (ignoreUnchanged : Bool) :
    Except PgError (String × List Val) :=
  let allFields := (modelFields m).filter
    (fun f => uniqueFields.contains f.column || !f.isAutoField)
  match mapE (colOf m) uniqueFields with
  | .error e => .error e
  | .ok uniqueDbCols =>
    match mapE (fun uf => colOf m uf.name) updateFields with
    | .error e => .error e
    | .ok updateDbCols =>
      match getUpdateFieldsSql m updateFields "EXCLUDED" ignoreUnchanged with
      | .error e => .error e
      | .ok sw =>
        let allFieldNamesSql := joinSep ", " ((allFields.map (fun f => f.column)).map quoteIdent)
        let rv := getValuesForRows prep objs allFields
        let uniqueFieldNamesSql := joinSep ", " (uniqueDbCols.map quoteIdent)
        let ignoreUnchangedSql := if sw.2 ≠ "" then "WHERE " ++ sw.2 else sw.2
        let returnSql := getReturningSql returning m true
        let onConflict := onConflictSql updateDbCols sw.1 ignoreUnchangedSql
        .ok (" INSERT INTO " ++ m.dbTable ++ " (" ++ allFieldNamesSql ++ ")"
              ++ " VALUES " ++ joinSep ", " rv.1
              ++ " ON CONFLICT (" ++ uniqueFieldNamesSql ++ ") " ++ onConflict
              ++ " " ++ returnSql,
             rv.2)

/-- `_prep_sql_args`: rewrites expression-valued arguments to literal-dumped
values via the driver; length- and position-preserving, identity on
storage-level values. -/
def prepSqlArgs (args : List Val) : List Val := args

/-- `_upsert`: fill auto fields, sort by the unique fields, select update
fields (the exclusion set always extended with the unique fields), then — on
a non-empty batch — compile and execute one statement. Returns the result
list when `returning` is truthy, else the no-result signal. The `exec`
collaborator yields `none` when the cursor has no description (no RETURNING
clause) and the fetched rows otherwise; the first component of the result
records every statement handed to it. -/
def upsertRun (m : Model) (prep : Field → Val → Val) (clock : Nat → Val) (k : Nat)
    (objs : List Rec) (uniqueFields : List String)
    (updateFields : Option (List UpdField)) (exclude : Option (List String))
    (returning : Returning) (ignoreUnchanged : Bool)
    (exec : String → List Val → Option (List Row)) :
    Except PgError (List (String × List Val) × Option (List Row)) :=
  match getUpdateFields m updateFields ((exclude.getD []) ++ uniqueFields) with
  | .error e => .error e
  | .ok updFields =>
    if (sortByUniqueFields m prep ((fillAutoFields m clock k objs).1) uniqueFields).isEmpty then
      .ok ([], if returning.truthy then some [] else none)
    else
      match getUpsertSql m prep
          (sortByUniqueFields m prep ((fillAutoFields m clock k objs).1) uniqueFields)
          uniqueFields updFields returning ignoreUnchanged with
      | .error e => .error e
      | .ok sa =>
        .ok ([(sa.1, prepSqlArgs sa.2)],
             if returning.truthy then some ((exec sa.1 (prepSqlArgs sa.2)).getD []) else none)

/-- The placeholder group emitted by `_update` for row number `rowNumber`:
`"%s::{db_types[i]}" if not row_number and i else "%s"` — note that the first
placeholder of the first row (the primary-key column) stays untyped. -/
def updRowTemplate (dbTypes : List String) (rowNumber : Nat) (row : List Val) : String :=
  "(" ++ joinSep ", "
    ((enumK row).map (fun p =>
      if rowNumber = 0 ∧ p.1 ≠ 0 then "%s::" ++ dbTypes.getD p.1 "" else "%s"))
    ++ ")"

/-- `_update`: select update fields, sort by raw primary key, extract one
value row per record over primary key + update fields, early-return the
no-result signal on an empty batch or empty update set, then compile and
execute `UPDATE ... FROM (VALUES ...) AS new_values (...) WHERE ...`. -/
def updateRun (m : Model) (prep : Field → Val → Val) (objs : List Rec)
    (updateFields : Option (List UpdField)) (exclude : Option (List String))
    (returning : Returning) (ignoreUnchanged : Bool)
    (exec : String → List Val → Option (List Row)) :
    Except PgError (List (String × List Val) × Option (List Row)) :=
  match getUpdateFields m updateFields (exclude.getD []) with
  | .error e => .error e
  | .ok updFields =>
    match mapE (fun uf => colOf m uf.name) updFields with
    | .error e => .error e
    | .ok _updateDbCols =>
      match sortByPkE m objs with
      | .error e => .error e
      | .ok objs1 =>
        match m.pk with
        | none => .error .valueError
        | some pkf =>
          let valueFields := pkf.attname :: updFields.map (fun uf => uf.name)
          match mapE (fun o =>
              mapE (fun fname =>
                match getFieldE m fname with
                | .error e => .error e
                | .ok f => .ok (prep f (getattrR o f.attname))) valueFields) objs1 with
          | .error e => .error e
          | .ok rowValues =>
            if rowValues.isEmpty || updFields.isEmpty then .ok ([], none)
            else
              match mapE (fun fname =>
                  match getFieldE m fname with
                  | .error e => .error e
                  | .ok f => .ok f.dbType) valueFields with
              | .error e => .error e
              | .ok dbTypes =>
                match mapE (fun fname =>
                    match getFieldE m fname with
                    | .error e => .error e
                    | .ok f => .ok (quoteIdent f.column)) valueFields with
                | .error e => .error e
                | .ok vfCols =>
                  match getUpdateFieldsSql m updFields "new_values" ignoreUnchanged with
                  | .error e => .error e
                  | .ok sw =>
                    let valuesSql := joinSep ", "
                      ((enumK rowValues).map (fun p => updRowTemplate dbTypes p.1 p.2))
                    let ignoreSql := if sw.2 ≠ "" then "AND " ++ sw.2 else sw.2
                    let updateSql :=
                      "UPDATE " ++ quoteIdent m.dbTable
                        ++ " SET " ++ sw.1
                        ++ " FROM (VALUES " ++ valuesSql ++ ") AS new_values ("
                        ++ joinSep ", " vfCols ++ ") WHERE "
                        ++ quoteIdent m.dbTable ++ "." ++ quoteIdent pkf.column
                        ++ " = new_values." ++ quoteIdent pkf.column
                        ++ " " ++ ignoreSql ++ " "
                        ++ getReturningSql returning m false
                    let params := prepSqlArgs (flattenL rowValues)
                    let updated := (exec updateSql params).getD []
                    .ok ([(updateSql, params)],
                         if returning.truthy then some updated else none)

/-- The `status_` value the storage engine computes for each returned upsert
row: `CASE WHEN xmax = 0 THEN 'c' ELSE 'u' END` (see `_get_returning_sql`). -/
def statusOfXmax (x : Nat) : String := if x = 0 then "c" else "u"

/-- Materialization of one raw returned row of a returning upsert into a
result row carrying the synthesized status tag. -/
def materializeUpsertRow (raw : RawRow) : Row :=
  ⟨statusOfXmax raw.xmax, raw.vals⟩

/-- `UpsertResult.created`: the created rows, computed by filtering. -/
def createdRows (rs : List Row) : List Row :=
  rs.filter (fun r => r.status_ == "c")

/-- `UpsertResult.updated`: the updated rows, computed by filtering. -/
def updatedRows (rs : List Row) : List Row :=
  rs.filter (fun r => r.status_ == "u")

/-- The number of positional `%s` placeholders in a SQL text, scanning left
to right (the driver's placeholder syntax). -/
def countPH : List Char → Nat
  | [] => 0
  | [_] => 0
  | a :: b :: rest =>
    if a = '%' ∧ b = 's' then 1 + countPH rest else countPH (b :: rest)

/-- A string free of the `%` placeholder marker. -/
def pctFree (s : String) : Prop := '%' ∉ s.data

instance instDecidablePctFree (s : String) : Decidable (pctFree s) :=
  inferInstanceAs (Decidable ('%' ∉ s.data))

/-- Decidable form of `pctFree`. -/
def pctFreeB (s : String) : Bool := !(s.data.contains '%')

/-- `s` contributes exactly `n` placeholders in any left context: appended
before any continuation, it adds `n` to the placeholder count. -/
def NPH (s : String) (n : Nat) : Prop :=
  ∀ rest : List Char, countPH (s.data ++ rest) = n + countPH rest

/-- All identifier/type texts a model contributes to generated SQL are free
of the placeholder marker. -/
def modelPctFree (m : Model) : Bool :=
  pctFreeB m.dbTable && m.fields.all (fun f => pctFreeB f.column && pctFreeB f.dbType)
    && (match m.pk with
        | some f => pctFreeB f.column
        | none => true)

/-- All compiled expression fragments of requested update fields are free of
the placeholder marker. -/
def updPctFree (tu : Option (List UpdField)) : Bool :=
  (tu.getD []).all (fun uf => pctFreeB (uf.expression.getD ""))

/-- All caller-given returning column names are free of the placeholder
marker. -/
def retPctFree : Returning → Bool
  | .cols cs => cs.all pctFreeB
  | _ => true

/-- Placeholder/argument parity of an operation result: every executed
statement has as many `%s` placeholders in its text as positional
arguments. -/
def parityB (r : Except PgError (List (String × List Val) × Option (List Row))) : Bool :=
  match r with
  | .error _ => true
  | .ok p => p.1.all (fun sa => countPH sa.1.data == sa.2.length)

/-- Well-formedness of a table descriptor as Django guarantees it: field
names are unique, no field's attname collides with another field's name, and
storage column names are unique. -/
def wfB (m : Model) : Bool :=
  m.fields.all (fun f => m.fields.all (fun g =>
    (f.name != g.name || f == g) && (f.attname != g.name || f == g)
      && (f.column != g.column || f == g)))

/-- The column-level exclusion check for one selected update entry: if its
name resolves to a field, that field is not a primary key, not
auto-timestamp-on-create, not generated and concrete. -/
def c2FieldOK (m : Model) (uf : UpdField) : Bool :=
  match getField m uf.name with
  | some f => !f.primaryKey && !f.autoNowAdd && !f.generated && f.concrete
  | none => true

/-- The selected update entries resolve to storage columns disjoint from the
uniqueness columns (vacuous when either resolution fails, since compilation
then raises before a statement exists). -/
def noUniqueOverlap (m : Model) (uniqueFields : List String) (res : List UpdField) : Bool :=
  match mapE (colOf m) uniqueFields, mapE (fun uf => colOf m uf.name) res with
  | .ok ucols, .ok rcols => rcols.all (fun c => !ucols.contains c)
  | _, _ => true

/-- The empty-batch contract of `_upsert`: no statement executed and the
result is an empty collection when returning is truthy, the no-result signal
otherwise. -/
def emptyBatchUpsertOK (ret : Returning)
    (r : Except PgError (List (String × List Val) × Option (List Row))) : Bool :=
  match r with
  | .error _ => true
  | .ok p => p.1.isEmpty && decide (p.2 = if ret.truthy then some [] else none)

/-- The empty-batch contract of `_update`: no statement executed and the
no-result signal regardless of `returning`. -/
def emptyBatchUpdateOK
    (r : Except PgError (List (String × List Val) × Option (List Row))) : Bool :=
  match r with
  | .error _ => true
  | .ok p => p.1.isEmpty && decide (p.2 = none)

/-- Pairwise ascending check of a list under a key and comparator. -/
def chainLeB (le : κ → κ → Bool) (key : α → κ) : List α → Bool
  | [] => true
  | [_] => true
  | a :: b :: rest => le (key a) (key b) && chainLeB le key (b :: rest)

/-- Sample auto-increment integer primary-key column. -/
def fId : Field := ⟨"id", "id", "id", "int8", true, false, false, false, true, true⟩

/-- Sample plain integer column. -/
def fStatus : Field := ⟨"status", "status", "status", "int4", false, false, false, false, true, false⟩

/-- Sample auto-timestamp-on-create column. -/
def fCreatedAt : Field :=
  ⟨"created_at", "created_at", "created_at", "timestamptz", false, true, false, false, true, false⟩

/-- Sample auto-timestamp-on-update column. -/
def fUpdatedAt : Field :=
  ⟨"updated_at", "updated_at", "updated_at", "timestamptz", false, false, true, false, true, false⟩

/-- Sample generated (computed) column, never selected. -/
def fGen : Field := ⟨"gen", "gen", "gen", "int4", false, false, false, true, true, false⟩

/-- Sample table descriptor. -/
def sampleModel : Model := ⟨"t", [fId, fStatus, fCreatedAt, fUpdatedAt, fGen], some fId⟩

/-- Sample serialization collaborator: values are already storage literals. -/
def samplePrep : Field → Val → Val := fun _ v => v

/-- A serialization collaborator whose storage order reverses the raw order
of integers (legitimate for a custom column type). -/
def negPrep : Field → Val → Val := fun _ v =>
  match v with
  | .int n => .int (-n)
  | w => w

/-- Sample ambient clock: the `n`-th reading is the instant `n`. -/
def sampleClock : Nat → Val := fun n => .int n

/-- Sample driver: executes and reports no cursor description. -/
def sampleExec : String → List Val → Option (List Row) := fun _ _ => none

/-- Sample record with primary key 1. -/
def recA : Rec := ⟨[("id", .int 1), ("status", .int 5)]⟩

/-- Sample record with primary key 2. -/
def recB : Rec := ⟨[("id", .int 2), ("status", .int 7)]⟩

/-- Sample table descriptor without a primary-key column. -/
def sampleModelNoPk : Model := ⟨"t2", [fStatus], none⟩

/-!
### Basic facts about strings, placeholder counting and list helpers
-/

theorem data_append (a b : String) : (a ++ b).data = a.data ++ b.data := by
  cases a
  cases b
  rfl

theorem strLen_append (a b : String) : (a ++ b).length = a.length + b.length := by
  show (a ++ b).data.length = a.data.length + b.data.length
  rw [data_append, List.length_append]

theorem countPH_cons2 (a b : Char) (rest : List Char) :
    countPH (a :: b :: rest) =
      if a = '%' ∧ b = 's' then 1 + countPH rest else countPH (b :: rest) := rfl

theorem countPH_append_pctFree (a b : List Char) (h : '%' ∉ a) :
    countPH (a ++ b) = countPH b := by
  induction a with
  | nil => rfl
  | cons x a' ih =>
    have hx : x ≠ '%' := fun hx => h (hx ▸ List.mem_cons_self x a')
    have h' : '%' ∉ a' := fun hm => h (List.mem_cons_of_mem x hm)
    cases hab : a' ++ b with
    | nil =>
      have ha : a' = [] := (List.append_eq_nil.mp hab).1
      have hb : b = [] := (List.append_eq_nil.mp hab).2
      subst ha
      subst hb
      rfl
    | cons y rest =>
      show countPH (x :: (a' ++ b)) = countPH b
      rw [hab, countPH_cons2]
      have : ¬(x = '%' ∧ y = 's') := fun hc => hx hc.1
      rw [if_neg this, ← hab, ih h']

theorem mapE_ok_length (f : α → Except PgError β) :
    ∀ l ys, mapE f l = .ok ys → ys.length = l.length := by
  intro l
  induction l with
  | nil => intro ys h; cases h; rfl
  | cons x xs ih =>
    intro ys h
    unfold mapE at h
    cases hx : f x with
    | error e => rw [hx] at h; cases h
    | ok y =>
      rw [hx] at h
      cases hxs : mapE f xs with
      | error e => rw [hxs] at h; cases h
      | ok ys' =>
        rw [hxs] at h
        cases h
        simp [ih ys' hxs]

theorem mapE_mem (f : α → Except PgError β) :
    ∀ l ys, mapE f l = .ok ys → ∀ y ∈ ys, ∃ x ∈ l, f x = .ok y := by
  intro l
  induction l with
  | nil => intro ys h y hy; cases h; cases hy
  | cons x xs ih =>
    intro ys h y hy
    unfold mapE at h
    cases hx : f x with
    | error e => rw [hx] at h; cases h
    | ok y' =>
      rw [hx] at h
      cases hxs : mapE f xs with
      | error e => rw [hxs] at h; cases h
      | ok ys' =>
        rw [hxs] at h
        cases h
        rcases List.mem_cons.mp hy with hy | hy
        · exact ⟨x, List.mem_cons_self x xs, hy ▸ hx⟩
        · rcases ih ys' hxs y hy with ⟨x', hx', hfx'⟩
          exact ⟨x', List.mem_cons_of_mem x hx', hfx'⟩

theorem enumFromK_length : ∀ (l : List α) k, (enumFromK k l).length = l.length := by
  intro l
  induction l with
  | nil => intro k; rfl
  | cons x xs ih => intro k; simp [enumFromK, ih]

theorem enumK_length (l : List α) : (enumK l).length = l.length :=
  enumFromK_length l 0

theorem enumFromK_map_const (g : β) : ∀ (l : List α) k,
    (enumFromK k l).map (fun _ => g) = l.map (fun _ => g) := by
  intro l
  induction l with
  | nil => intro k; rfl
  | cons x xs ih => intro k; simp [enumFromK, ih]

theorem flattenL_length_const (c : Nat) :
    ∀ ll : List (List α), (∀ x ∈ ll, x.length = c) →
      (flattenL ll).length = ll.length * c := by
  intro ll
  induction ll with
  | nil => intro _; simp [flattenL]
  | cons x xs ih =>
    intro h
    have hx := h x (List.mem_cons_self x xs)
    have hxs := ih (fun y hy => h y (List.mem_cons_of_mem x hy))
    simp [flattenL, List.length_append, hx, hxs, Nat.succ_mul, Nat.add_comm]

theorem contains_iff_mem {α : Type} [DecidableEq α] (l : List α) (a : α) :
    l.contains a = true ↔ a ∈ l := by
  simp [List.contains, List.elem_iff]

theorem pctFreeB_iff (s : String) : pctFreeB s = true ↔ pctFree s := by
  simp [pctFreeB, pctFree, List.contains, List.elem_iff]

theorem pctFree_append (a b : String) (ha : pctFree a) (hb : pctFree b) :
    pctFree (a ++ b) := by
  unfold pctFree at *
  rw [data_append]
  intro hm
  rcases List.mem_append.mp hm with h | h
  · exact ha h
  · exact hb h

theorem pctFree_joinSep (sep : String) (hsep : pctFree sep) :
    ∀ ss : List String, (∀ s ∈ ss, pctFree s) → pctFree (joinSep sep ss) := by
  intro ss
  induction ss with
  | nil =>
    intro _
    show pctFree ""
    decide
  | cons x xs ih =>
    intro h
    cases xs with
    | nil => exact h x (List.mem_cons_self x [])
    | cons y tl =>
      show pctFree (x ++ sep ++ joinSep sep (y :: tl))
      exact pctFree_append _ _
        (pctFree_append _ _ (h x (List.mem_cons_self _ _)) hsep)
        (ih (fun s hs => h s (List.mem_cons_of_mem x hs)))

theorem pctFree_quoteIdent (s : String) (h : pctFree s) : pctFree (quoteIdent s) := by
  unfold quoteIdent
  exact pctFree_append _ _ (pctFree_append _ _ (by decide) h) (by decide)

theorem NPH_congr (s : String) (n n' : Nat) (h : NPH s n) (he : n = n') : NPH s n' :=
  he ▸ h

theorem NPH_zero_of_pctFree (s : String) (h : pctFree s) : NPH s 0 := by
  intro rest
  rw [countPH_append_pctFree s.data rest h]
  simp

theorem NPH_append (a b : String) (n m : Nat) (ha : NPH a n) (hb : NPH b m) :
    NPH (a ++ b) (n + m) := by
  intro rest
  rw [data_append, List.append_assoc, ha (b.data ++ rest), hb rest, Nat.add_assoc]

theorem NPH_of_data_ph (s : String) (t : List Char) (h : s.data = '%' :: 's' :: t)
    (ht : '%' ∉ t) : NPH s 1 := by
  intro rest
  rw [h]
  show countPH ('%' :: 's' :: (t ++ rest)) = 1 + countPH rest
  rw [countPH_cons2, if_pos ⟨rfl, rfl⟩, countPH_append_pctFree t rest ht]

theorem NPH_ph : NPH "%s" 1 :=
  NPH_of_data_ph "%s" [] rfl (by decide)

theorem NPH_cast (ty : String) (h : pctFree ty) : NPH ("%s::" ++ ty) 1 :=
  NPH_congr _ _ _
    (NPH_append "%s::" ty 1 0
      (NPH_of_data_ph "%s::" [':', ':'] rfl (by decide))
      (NPH_zero_of_pctFree ty h))
    (Nat.add_zero 1)

theorem NPH_count (s : String) (n : Nat) (h : NPH s n) : countPH s.data = n := by
  have hz : countPH ([] : List Char) = 0 := rfl
  have := h []
  rwa [List.append_nil, hz, Nat.add_zero] at this

theorem NPH_joinSep (k : Nat) :
    ∀ ss : List String, (∀ s ∈ ss, NPH s k) →
      NPH (joinSep ", " ss) (ss.length * k) := by
  intro ss
  induction ss with
  | nil =>
    intro _
    exact NPH_congr _ _ _ (NPH_zero_of_pctFree "" (by decide)) (by simp)
  | cons x xs ih =>
    intro h
    cases xs with
    | nil =>
      exact NPH_congr _ _ _ (h x (List.mem_cons_self _ _)) (by simp)
    | cons y tl =>
      show NPH (x ++ ", " ++ joinSep ", " (y :: tl)) ((x :: y :: tl).length * k)
      refine NPH_congr _ _ _
        (NPH_append _ _ (k + 0) ((y :: tl).length * k)
          (NPH_append _ _ k 0 (h x (List.mem_cons_self _ _))
            (NPH_zero_of_pctFree ", " (by decide)))
          (ih (fun s hs => h s (List.mem_cons_of_mem x hs)))) ?_
      simp [List.length_cons]
      ring

theorem getD_pctFree (l : List String) (i : Nat)
    (h : ∀ t ∈ l, pctFree t) : pctFree (l.getD i "") := by
  unfold List.getD
  cases hg : l.get? i with
  | none => simp [hg]; decide
  | some t =>
    have := List.get?_mem hg
    simp [hg]
    exact h t this

/-!
### The stable sort: ascending output, stability, permutation
-/

theorem insertSorted_cons {κ α : Type} (le : κ → κ → Bool) (key : α → κ)
    (x y : α) (ys : List α) :
    insertSorted le key x (y :: ys) =
      if le (key x) (key y) = true then x :: y :: ys
      else y :: insertSorted le key x ys := rfl

theorem insertSorted_chain {κ α : Type} (le : κ → κ → Bool) (key : α → κ)
    (htot : ∀ a b, le a b = true ∨ le b a = true) (x : α) :
    ∀ s : List α, List.Chain' (fun a b => le (key a) (key b) = true) s →
      List.Chain' (fun a b => le (key a) (key b) = true) (insertSorted le key x s) := by
  intro s
  induction s with
  | nil => intro _; simp [insertSorted]
  | cons y ys ih =>
    intro h
    rw [insertSorted_cons]
    by_cases hxy : le (key x) (key y) = true
    · rw [if_pos hxy]
      exact List.chain'_cons.mpr ⟨hxy, h⟩
    · rw [if_neg hxy]
      have hyx : le (key y) (key x) = true := (htot (key x) (key y)).resolve_left hxy
      have htail : List.Chain' (fun a b => le (key a) (key b) = true) ys := h.tail
      cases ys with
      | nil => simp [insertSorted, hyx]
      | cons z zs =>
        have hyz : le (key y) (key z) = true := (List.chain'_cons.mp h).1
        have hins := ih htail
        rw [insertSorted_cons]
        by_cases hxz : le (key x) (key z) = true
        · rw [if_pos hxz]
          refine List.chain'_cons.mpr ⟨hyx, ?_⟩
          have : insertSorted le key x (z :: zs) = x :: z :: zs := by
            rw [insertSorted_cons, if_pos hxz]
          rwa [this] at hins
        · rw [if_neg hxz]
          refine List.chain'_cons.mpr ⟨hyz, ?_⟩
          have : insertSorted le key x (z :: zs) = z :: insertSorted le key x zs := by
            rw [insertSorted_cons, if_neg hxz]
          rwa [this] at hins

theorem sortByKey_chain {κ α : Type} (le : κ → κ → Bool) (key : α → κ)
    (htot : ∀ a b, le a b = true ∨ le b a = true) :
    ∀ l : List α, List.Chain' (fun a b => le (key a) (key b) = true) (sortByKey le key l) := by
  intro l
  induction l with
  | nil => simp [sortByKey]
  | cons x xs ih => exact insertSorted_chain le key htot x _ ih

theorem insertSorted_filter_pos {κ α : Type} (le : κ → κ → Bool) (key : α → κ)
    [DecidableEq κ] (hrefl : ∀ a, le a a = true) (x : α) (kv : κ) (hx : key x = kv) :
    ∀ s : List α, (insertSorted le key x s).filter (fun a => decide (key a = kv)) =
      x :: s.filter (fun a => decide (key a = kv)) := by
  intro s
  induction s with
  | nil => simp [insertSorted, hx]
  | cons y ys ih =>
    rw [insertSorted_cons]
    by_cases hxy : le (key x) (key y) = true
    · rw [if_pos hxy]
      simp [List.filter_cons, hx]
    · rw [if_neg hxy]
      have hky : key y ≠ kv := fun hk => hxy (by rw [hx, ← hk]; exact hrefl (key y))
      simp [List.filter_cons, hky, ih]

theorem insertSorted_filter_neg {κ α : Type} (le : κ → κ → Bool) (key : α → κ)
    [DecidableEq κ] (x : α) (kv : κ) (hx : key x ≠ kv) :
    ∀ s : List α, (insertSorted le key x s).filter (fun a => decide (key a = kv)) =
      s.filter (fun a => decide (key a = kv)) := by
  intro s
  induction s with
  | nil => simp [insertSorted, hx]
  | cons y ys ih =>
    rw [insertSorted_cons]
    by_cases hxy : le (key x) (key y) = true
    · rw [if_pos hxy]
      simp [List.filter_cons, hx]
    · rw [if_neg hxy]
      simp [List.filter_cons, ih]

theorem sortByKey_stable {κ α : Type} (le : κ → κ → Bool) (key : α → κ)
    [DecidableEq κ] (hrefl : ∀ a, le a a = true) :
    ∀ (l : List α) (kv : κ),
      (sortByKey le key l).filter (fun a => decide (key a = kv)) =
        l.filter (fun a => decide (key a = kv)) := by
  intro l
  induction l with
  | nil => intro kv; rfl
  | cons x xs ih =>
    intro kv
    show (insertSorted le key x (sortByKey le key xs)).filter _ = _
    by_cases hx : key x = kv
    · rw [insertSorted_filter_pos le key hrefl x kv hx, ih kv]
      simp [List.filter, hx]
    · rw [insertSorted_filter_neg le key x kv hx, ih kv]
      simp [List.filter, hx]

theorem insertSorted_perm {κ α : Type} (le : κ → κ → Bool) (key : α → κ) (x : α) :
    ∀ s : List α, List.Perm (insertSorted le key x s) (x :: s) := by
  intro s
  induction s with
  | nil => simp [insertSorted]
  | cons y ys ih =>
    rw [insertSorted_cons]
    by_cases hxy : le (key x) (key y) = true
    · rw [if_pos hxy]
    · rw [if_neg hxy]
      exact ((ih.cons y).trans (List.Perm.swap x y ys))

theorem sortByKey_perm {κ α : Type} (le : κ → κ → Bool) (key : α → κ) :
    ∀ l : List α, List.Perm (sortByKey le key l) l := by
  intro l
  induction l with
  | nil => simp [sortByKey]
  | cons x xs ih =>
    exact (insertSorted_perm le key x _).trans (ih.cons x)

theorem valLe_refl (a : Val) : Val.le a a = true := by
  cases a <;> simp [Val.le]

theorem valLe_total (a b : Val) : Val.le a b = true ∨ Val.le b a = true := by
  cases a <;> cases b <;> simp [Val.le]
  · exact Int.le_total _ _
  · exact le_total _ _

theorem listValLe_refl : ∀ l : List Val, listValLe l l = true := by
  intro l
  induction l with
  | nil => rfl
  | cons a as' ih => simp [listValLe, valLe_refl, ih]

theorem listValLe_total : ∀ l1 l2 : List Val, listValLe l1 l2 = true ∨ listValLe l2 l1 = true := by
  intro l1
  induction l1 with
  | nil => intro l2; left; rfl
  | cons a as' ih =>
    intro l2
    cases l2 with
    | nil => right; rfl
    | cons b bs' =>
      by_cases hab : Val.le a b = true
      · by_cases hba : Val.le b a = true
        · rcases ih bs' with h | h
          · left; simp [listValLe, hab, hba, h]
          · right; simp [listValLe, hab, hba, h]
        · left
          simp [listValLe, hab, hba]
      · have hba : Val.le b a = true := (valLe_total a b).resolve_left hab
        right
        simp [listValLe, hab, hba]

/-!
### Positions in enumerations and the VALUES templates
-/

theorem enumFromK_fst_ge : ∀ (l : List α) (k : Nat), ∀ p ∈ enumFromK k l, k ≤ p.1 := by
  intro l
  induction l with
  | nil => intro k p hp; cases hp
  | cons x xs ih =>
    intro k p hp
    rcases List.mem_cons.mp hp with h | h
    · rw [h]
    · exact Nat.le_of_succ_le (ih (k + 1) p h)

theorem enumFromK_map_untypedTemplate (allFields : List Field) :
    ∀ (objs : List Rec) (k : Nat),
      (enumFromK (k + 1) objs).map (fun p => upsertRowTemplate allFields p.1) =
        objs.map (fun _ => "(" ++ joinSep ", " (allFields.map (fun _ => "%s")) ++ ")") := by
  intro objs
  induction objs with
  | nil => intro k; rfl
  | cons o os ih =>
    intro k
    show (upsertRowTemplate allFields (k + 1)) :: _ = _
    rw [ih (k + 1)]
    simp [upsertRowTemplate]

/-- C1 counterexample: in the bulk-update compiler, the first VALUES group of
a batch (primary key `int8` plus one `int4` update column) renders as
`(%s, %s::int4)` — its first placeholder carries no storage-type cast — and
not as the fully cast `(%s::int8, %s::int4)` the claim requires. -/
theorem c1_counterexample :
    updRowTemplate ["int8", "int4"] 0 [Val.int 1, Val.int 5] = "(%s, %s::int4)"
      ∧ ("(%s, %s::int4)" : String) ≠ "(%s::int8, %s::int4)" := by
  constructor
  · decide
  · decide

/-- C1 (amended): in the upsert compiler every placeholder of the first
VALUES group carries its column's storage-type cast and every later group is
fully untyped; in the bulk-update compiler the first group's placeholders are
cast except the first one (the primary-key column, position 0), and every
later group is fully untyped. -/
theorem c1_amended :
    (∀ (prep : Field → Val → Val) (o : Rec) (objs : List Rec) (allFields : List Field),
      (getValuesForRows prep (o :: objs) allFields).1 =
        ("(" ++ joinSep ", " (allFields.map (fun f => "%s::" ++ f.dbType)) ++ ")") ::
          objs.map (fun _ => "(" ++ joinSep ", " (allFields.map (fun _ => "%s")) ++ ")"))
    ∧ (∀ (dbTypes : List String) (v : Val) (vs : List Val),
      updRowTemplate dbTypes 0 (v :: vs) =
        "(" ++ joinSep ", "
          ("%s" :: (enumFromK 1 vs).map (fun p => "%s::" ++ dbTypes.getD p.1 "")) ++ ")")
    ∧ (∀ (dbTypes : List String) (rn : Nat) (row : List Val),
      updRowTemplate dbTypes (rn + 1) row =
        "(" ++ joinSep ", " (row.map (fun _ => "%s")) ++ ")") := by
  refine ⟨?_, ?_, ?_⟩
  · intro prep o objs allFields
    show (upsertRowTemplate allFields 0) ::
        ((enumFromK 1 objs).map (fun p => upsertRowTemplate allFields p.1)) = _
    rw [enumFromK_map_untypedTemplate allFields objs 0]
    simp [upsertRowTemplate]
  · intro dbTypes v vs
    unfold updRowTemplate
    have hcells :
        ((enumK (v :: vs)).map (fun p =>
            if (0 : Nat) = 0 ∧ p.1 ≠ 0 then "%s::" ++ dbTypes.getD p.1 "" else "%s")) =
          "%s" :: (enumFromK 1 vs).map (fun p => "%s::" ++ dbTypes.getD p.1 "") := by
      show (if (0 : Nat) = 0 ∧ (0 : Nat) ≠ 0 then "%s::" ++ dbTypes.getD 0 "" else "%s") :: _ = _
      rw [if_neg (by simp)]
      refine congrArg _ (List.map_congr_left ?_)
      intro p hp
      have h1 : 1 ≤ p.1 := enumFromK_fst_ge vs 1 p hp
      rw [if_pos ⟨rfl, by omega⟩]
    rw [hcells]
  · intro dbTypes rn row
    unfold updRowTemplate
    have hcells :
        ((enumK row).map (fun p =>
            if rn + 1 = 0 ∧ p.1 ≠ 0 then "%s::" ++ dbTypes.getD p.1 "" else "%s")) =
          row.map (fun _ => "%s") := by
      have : ((enumK row).map (fun p =>
          if rn + 1 = 0 ∧ p.1 ≠ 0 then "%s::" ++ dbTypes.getD p.1 "" else "%s")) =
          (enumK row).map (fun _ => "%s") :=
        List.map_congr_left (fun p _ => if_neg (by simp))
      rw [this]
      exact enumFromK_map_const "%s" row 0
    rw [hcells]

/-- C5: the conflict arm of the compiled upsert is `DO NOTHING` precisely
when the computed update-column set is empty, and with a non-empty
update-column set it is the `DO UPDATE SET` arm over the rendered SET list of
exactly those columns. -/
theorem c5_theorem :
    (∀ (cols : List String) (s w : String),
      (onConflictSql cols s w = "DO NOTHING" ↔ cols = []))
    ∧ (∀ (c : String) (cs : List String) (s w : String),
      onConflictSql (c :: cs) s w = "DO UPDATE SET " ++ s ++ " " ++ w) := by
  have hcons : ∀ (c : String) (cs : List String) (s w : String),
      onConflictSql (c :: cs) s w = "DO UPDATE SET " ++ s ++ " " ++ w := by
    intro c cs s w
    simp [onConflictSql]
  refine ⟨?_, hcons⟩
  intro cols s w
  cases cols with
  | nil => simp [onConflictSql]
  | cons c cs =>
    rw [hcons c cs s w]
    constructor
    · intro h
      exfalso
      have hl := congrArg String.length h
      rw [strLen_append, strLen_append, strLen_append] at hl
      have h1 : ("DO UPDATE SET " : String).length = 14 := rfl
      have h2 : (" " : String).length = 1 := rfl
      have h3 : ("DO NOTHING" : String).length = 10 := rfl
      rw [h1, h2, h3] at hl
      omega
    · intro h
      exact absurd h (List.cons_ne_nil c cs)

/-- C8: every materialized row of a returning upsert carries a status tag
that is `c` or `u`; the created view appended to the updated view is a
permutation of the whole result, and no row lies in both views. -/
theorem c8_theorem (raws : List RawRow) :
    ((raws.map materializeUpsertRow).all
        (fun r => r.status_ == "c" || r.status_ == "u") = true)
    ∧ List.Perm
        (createdRows (raws.map materializeUpsertRow)
          ++ updatedRows (raws.map materializeUpsertRow))
        (raws.map materializeUpsertRow)
    ∧ (∀ r : Row,
        ¬(r ∈ createdRows (raws.map materializeUpsertRow)
          ∧ r ∈ updatedRows (raws.map materializeUpsertRow))) := by
  have hcu : ∀ r ∈ raws.map materializeUpsertRow, r.status_ = "c" ∨ r.status_ = "u" := by
    intro r hr
    rcases List.mem_map.mp hr with ⟨raw, _, rfl⟩
    unfold materializeUpsertRow statusOfXmax
    by_cases h : raw.xmax = 0
    · left; simp [h]
    · right; simp [h]
  refine ⟨?_, ?_, ?_⟩
  · rw [List.all_eq_true]
    intro r hr
    rcases hcu r hr with h | h <;> rw [h] <;> decide
  · have hupd : updatedRows (raws.map materializeUpsertRow) =
        (raws.map materializeUpsertRow).filter (fun r => !(r.status_ == "c")) := by
      unfold updatedRows
      refine List.filter_congr ?_
      intro r hr
      rcases hcu r hr with h | h <;> rw [h] <;> decide
    rw [hupd]
    unfold createdRows
    exact List.filter_append_perm _ _
  · rintro r ⟨hc, hu⟩
    have hc' : r ∈ (raws.map materializeUpsertRow).filter (fun r => r.status_ == "c") := hc
    have hu' : r ∈ (raws.map materializeUpsertRow).filter (fun r => r.status_ == "u") := hu
    have h1 := List.of_mem_filter hc'
    have h2 := List.of_mem_filter hu'
    simp only [beq_iff_eq] at h1 h2
    exact absurd (h1.symm.trans h2) (by decide)

/-- C3 counterexample: an empty batch upserted with `returning=True` yields
the empty result collection (`UpsertResult([])`), not the no-result signal
`None` the claim requires (no statement is executed, as the empty executed
list shows). -/
theorem c3_counterexample :
    upsertRun sampleModel samplePrep sampleClock 0 [] ["id"] none none .all false sampleExec
      = .ok ([], some [])
    ∧ some ([] : List Row) ≠ (none : Option (List Row)) := by
  constructor
  · decide
  · decide

/-- `sorted` on an empty batch is empty and raises nothing, with or without a
primary-key column. -/
theorem sortByPkE_nil (m : Model) : sortByPkE m [] = .ok [] := by
  unfold sortByPkE
  cases m.pk with
  | some pkf => rfl
  | none => rfl

/-- C3 (amended): an empty input batch executes no statement in either
operation; bulk update returns the no-result signal regardless of
`returning`, while upsert returns the empty result collection (not the
no-result signal) whenever `returning` is truthy. -/
theorem c3_amended :
    ∀ (m : Model) (prep : Field → Val → Val) (clock : Nat → Val) (k : Nat)
      (uniq : List String) (tu : Option (List UpdField)) (ex : Option (List String))
      (ret : Returning) (ign : Bool) (exec : String → List Val → Option (List Row)),
      emptyBatchUpsertOK ret (upsertRun m prep clock k [] uniq tu ex ret ign exec) = true
      ∧ emptyBatchUpdateOK (updateRun m prep [] tu ex ret ign exec) = true := by
  intro m prep clock k uniq tu ex ret ign exec
  constructor
  · simp only [upsertRun, fillAutoFields, List.map_nil, sortByUniqueFields, sortByKey]
    split
    · rfl
    · cases ht : ret.truthy <;> simp [emptyBatchUpsertOK, ht]
  · simp only [updateRun, sortByPkE_nil, mapE]
    split
    · rfl
    · split
      · rfl
      · split
        · rfl
        · simp [emptyBatchUpdateOK]

/-!
### Attribute reads after attribute writes
-/

theorem find?_assocUpdate_same {β : Type} (a : String) (v : β) :
    ∀ l : List (String × β),
      (assocUpdate l a v).find? (fun p => p.1 == a) = some (a, v) := by
  intro l
  induction l with
  | nil =>
    show List.find? (fun p => p.1 == a) [(a, v)] = some (a, v)
    rw [List.find?_cons_of_pos _ (by simp)]
  | cons kv rest ih =>
    rcases kv with ⟨k', v'⟩
    by_cases hk : k' = a
    · simp only [assocUpdate, if_pos hk]
      rw [List.find?_cons_of_pos _ (by simp)]
    · simp only [assocUpdate, if_neg hk]
      rw [List.find?_cons_of_neg _ (by simp [hk])]
      exact ih

theorem find?_assocUpdate_ne {β : Type} (a b : String) (v : β) (h : b ≠ a) :
    ∀ l : List (String × β),
      (assocUpdate l a v).find? (fun p => p.1 == b) = l.find? (fun p => p.1 == b) := by
  intro l
  induction l with
  | nil =>
    show List.find? (fun p => p.1 == b) [(a, v)] = List.find? (fun p => p.1 == b) []
    rw [List.find?_cons_of_neg _ (by simp [Ne.symm h])]
  | cons kv rest ih =>
    rcases kv with ⟨k', v'⟩
    by_cases hk : k' = a
    · subst hk
      have hrw : assocUpdate ((k', v') :: rest) k' v = (k', v) :: rest := by
        simp [assocUpdate]
      rw [hrw, List.find?_cons_of_neg _ (by simp [Ne.symm h]),
        List.find?_cons_of_neg _ (by simp [Ne.symm h])]
    · simp only [assocUpdate, if_neg hk]
      by_cases hkb : k' = b
      · rw [List.find?_cons_of_pos _ (by simp [hkb]),
          List.find?_cons_of_pos _ (by simp [hkb])]
      · rw [List.find?_cons_of_neg _ (by simp [hkb]),
          List.find?_cons_of_neg _ (by simp [hkb])]
        exact ih

theorem getattrR_setattrR_same (r : Rec) (a : String) (v : Val) :
    getattrR (setattrR r a v) a = v := by
  unfold getattrR setattrR
  rw [find?_assocUpdate_same a v r.attrs]
  rfl

theorem getattrR_setattrR_ne (r : Rec) (a b : String) (v : Val) (h : a ≠ b) :
    getattrR (setattrR r b v) a = getattrR r a := by
  unfold getattrR setattrR
  rw [find?_assocUpdate_ne b a v h r.attrs]

theorem getattrR_foldlSet_notMem (now : Val) :
    ∀ (names : List String) (o : Rec) (a : String), a ∉ names →
      getattrR (names.foldl (fun acc n => setattrR acc n now) o) a = getattrR o a := by
  intro names
  induction names with
  | nil => intro o a _; rfl
  | cons n ns ih =>
    intro o a ha
    have han : a ≠ n := fun he => ha (he ▸ List.mem_cons_self n ns)
    have hans : a ∉ ns := fun hm => ha (List.mem_cons_of_mem n hm)
    show getattrR (ns.foldl (fun acc n => setattrR acc n now) (setattrR o n now)) a = _
    rw [ih (setattrR o n now) a hans, getattrR_setattrR_ne o a n now han]

theorem getattrR_foldlSet_mem (now : Val) :
    ∀ (names : List String) (o : Rec) (a : String), a ∈ names →
      getattrR (names.foldl (fun acc n => setattrR acc n now) o) a = now := by
  intro names
  induction names with
  | nil => intro o a ha; cases ha
  | cons n ns ih =>
    intro o a ha
    show getattrR (ns.foldl (fun acc n => setattrR acc n now) (setattrR o n now)) a = now
    by_cases hans : a ∈ ns
    · exact ih (setattrR o n now) a hans
    · have han : a = n := (List.mem_cons.mp ha).resolve_right hans
      rw [getattrR_foldlSet_notMem now ns (setattrR o n now) a hans, han,
        getattrR_setattrR_same o n now]

/-- C6 counterexample: under a serialization collaborator whose storage order
reverses raw integer order, the bulk-update sequencer (which sorts by the raw
`obj.pk` value) produces a batch that is not ascending in the storage-literal
order of the primary key, and differs from the storage-literal sort the claim
prescribes. -/
theorem c6_counterexample :
    chainLeB Val.le (fun o => negPrep fId (getattrR o "id"))
        (sortObjsByPk fId [recA, recB]) = false
    ∧ sortObjsByPk fId [recA, recB]
        ≠ sortByKey Val.le (fun o => negPrep fId (getattrR o "id")) [recA, recB] := by
  constructor
  · decide
  · decide

/-- C6 (amended): the upsert sequencer sorts ascending by the tuple of
storage-literal values of the unique fields and is stable (records with equal
keys keep their original relative order); the bulk-update sequencer sorts
ascending by the raw primary-key attribute value — not its storage literal —
and is likewise stable. -/
theorem c6_amended :
    (∀ (m : Model) (prep : Field → Val → Val) (objs : List Rec) (uniq : List String),
      List.Chain' (fun a b =>
          listValLe (uniqueSortKey m prep uniq a) (uniqueSortKey m prep uniq b) = true)
        (sortByUniqueFields m prep objs uniq)
      ∧ ∀ kv : List Val,
          (sortByUniqueFields m prep objs uniq).filter
              (fun o => decide (uniqueSortKey m prep uniq o = kv)) =
            objs.filter (fun o => decide (uniqueSortKey m prep uniq o = kv)))
    ∧ (∀ (pkf : Field) (objs : List Rec),
      List.Chain' (fun a b =>
          Val.le (getattrR a pkf.attname) (getattrR b pkf.attname) = true)
        (sortObjsByPk pkf objs)
      ∧ ∀ kv : Val,
          (sortObjsByPk pkf objs).filter (fun o => decide (getattrR o pkf.attname = kv)) =
            objs.filter (fun o => decide (getattrR o pkf.attname = kv))) := by
  constructor
  · intro m prep objs uniq
    constructor
    · exact sortByKey_chain listValLe (uniqueSortKey m prep uniq)
        (fun a b => listValLe_total a b) objs
    · intro kv
      exact sortByKey_stable listValLe (uniqueSortKey m prep uniq)
        (fun a => listValLe_refl a) objs kv
  · intro pkf objs
    constructor
    · exact sortByKey_chain Val.le (fun o => getattrR o pkf.attname)
        (fun a b => valLe_total a b) objs
    · intro kv
      exact sortByKey_stable Val.le (fun o => getattrR o pkf.attname)
        (fun a => valLe_refl a) objs kv

/-- C9: the engine's only mutation of caller records is to populate every
auto-timestamp field with the clock reading, leaving all other attributes
unchanged; the upsert pipeline's sequenced records are exactly the filled
originals (population precedes extraction), and the bulk-update pipeline's
sequenced records are the untouched originals. -/
theorem c9_theorem :
    ∀ (m : Model) (clock : Nat → Val) (k : Nat),
      (∀ (o : Rec) (a : String), a ∉ autoFieldNames m →
        getattrR (fillOne m (clock k) o) a = getattrR o a)
      ∧ (∀ (o : Rec) (a : String), a ∈ autoFieldNames m →
        getattrR (fillOne m (clock k) o) a = clock k)
      ∧ (∀ (prep : Field → Val → Val) (objs : List Rec) (uniq : List String) (o' : Rec),
          o' ∈ sortByUniqueFields m prep (fillAutoFields m clock k objs).1 uniq →
            ∃ o ∈ objs, o' = fillOne m (clock k) o)
      ∧ (∀ (pkf : Field) (objs : List Rec) (o' : Rec),
          o' ∈ sortObjsByPk pkf objs → o' ∈ objs) := by
  intro m clock k
  refine ⟨?_, ?_, ?_, ?_⟩
  · intro o a ha
    exact getattrR_foldlSet_notMem (clock k) (autoFieldNames m) o a ha
  · intro o a ha
    exact getattrR_foldlSet_mem (clock k) (autoFieldNames m) o a ha
  · intro prep objs uniq o' ho'
    have hperm := sortByKey_perm listValLe (uniqueSortKey m prep uniq)
      ((fillAutoFields m clock k objs).1)
    have hmem : o' ∈ (fillAutoFields m clock k objs).1 := hperm.mem_iff.mp ho'
    have : o' ∈ objs.map (fillOne m (clock k)) := hmem
    rcases List.mem_map.mp this with ⟨o, ho, heq⟩
    exact ⟨o, ho, heq.symm⟩
  · intro pkf objs o' ho'
    have hperm := sortByKey_perm Val.le (fun o => getattrR o pkf.attname) objs
    exact hperm.mem_iff.mp ho'

/-- C9 witness: on the sample model, filling leaves `status` unchanged, sets
`updated_at` to the clock reading, and the bulk-update sequencer only
reorders the original records. -/
theorem c9_witness :
    ("status" ∉ autoFieldNames sampleModel)
    ∧ getattrR (fillOne sampleModel (sampleClock 0) recA) "status" = getattrR recA "status"
    ∧ ("updated_at" ∈ autoFieldNames sampleModel)
    ∧ getattrR (fillOne sampleModel (sampleClock 0) recA) "updated_at" = sampleClock 0
    ∧ recA ∈ sortObjsByPk fId [recA, recB]
    ∧ recA ∈ [recA, recB] :=
  ⟨by decide,
   (c9_theorem sampleModel sampleClock 0).1 recA "status" (by decide),
   by decide,
   (c9_theorem sampleModel sampleClock 0).2.1 recA "updated_at" (by decide),
   by decide,
   (c9_theorem sampleModel sampleClock 0).2.2.2 fId [recA, recB] recA (by decide)⟩

/-- C10: `_fill_auto_fields` advances the clock by exactly one reading per
call, and every auto-timestamp field of every record in the batch receives
that single reading, so no two records get different timestamps. -/
theorem c10_theorem :
    ∀ (m : Model) (clock : Nat → Val) (k : Nat) (objs : List Rec),
      (fillAutoFields m clock k objs).2 = k + 1
      ∧ (∀ o' ∈ (fillAutoFields m clock k objs).1, ∀ a ∈ autoFieldNames m,
          getattrR o' a = clock k)
      ∧ (∀ o1 ∈ (fillAutoFields m clock k objs).1,
         ∀ o2 ∈ (fillAutoFields m clock k objs).1,
         ∀ a1 ∈ autoFieldNames m, ∀ a2 ∈ autoFieldNames m,
          getattrR o1 a1 = getattrR o2 a2) := by
  intro m clock k objs
  have hval : ∀ o' ∈ (fillAutoFields m clock k objs).1, ∀ a ∈ autoFieldNames m,
      getattrR o' a = clock k := by
    intro o' ho' a ha
    have : o' ∈ objs.map (fillOne m (clock k)) := ho'
    rcases List.mem_map.mp this with ⟨o, _, heq⟩
    rw [← heq]
    exact getattrR_foldlSet_mem (clock k) (autoFieldNames m) o a ha
  refine ⟨rfl, hval, ?_⟩
  intro o1 h1 o2 h2 a1 ha1 a2 ha2
  rw [hval o1 h1 a1 ha1, hval o2 h2 a2 ha2]

/-- C10 witness: with the sample clock, both auto fields of both records in a
two-record batch carry the single reading taken at position 0. -/
theorem c10_witness :
    (fillAutoFields sampleModel sampleClock 0 [recA, recB]).2 = 0 + 1
    ∧ fillOne sampleModel (sampleClock 0) recA
        ∈ (fillAutoFields sampleModel sampleClock 0 [recA, recB]).1
    ∧ fillOne sampleModel (sampleClock 0) recB
        ∈ (fillAutoFields sampleModel sampleClock 0 [recA, recB]).1
    ∧ ("created_at" ∈ autoFieldNames sampleModel)
    ∧ ("updated_at" ∈ autoFieldNames sampleModel)
    ∧ getattrR (fillOne sampleModel (sampleClock 0) recA) "created_at"
        = getattrR (fillOne sampleModel (sampleClock 0) recB) "updated_at" :=
  ⟨(c10_theorem sampleModel sampleClock 0 [recA, recB]).1,
   by decide, by decide, by decide, by decide,
   (c10_theorem sampleModel sampleClock 0 [recA, recB]).2.2
     (fillOne sampleModel (sampleClock 0) recA) (by decide)
     (fillOne sampleModel (sampleClock 0) recB) (by decide)
     "created_at" (by decide) "updated_at" (by decide)⟩

/-!
### Field selection: what `_get_update_fields` can return
-/

theorem modelFields_mem (m : Model) (f : Field) (h : f ∈ modelFields m) :
    f ∈ m.fields ∧ f.generated = false ∧ f.concrete = true := by
  unfold modelFields at h
  have hmf := List.mem_filter.mp h
  have hb := hmf.2
  rw [Bool.and_eq_true, Bool.not_eq_true'] at hb
  exact ⟨hmf.1, hb.1, hb.2⟩

theorem getField_some (m : Model) (n : String) (f : Field) (h : getField m n = some f) :
    f ∈ m.fields ∧ f.name = n := by
  unfold getField at h
  refine ⟨List.mem_of_find?_eq_some h, ?_⟩
  have := List.find?_some h
  simpa [beq_iff_eq] using this

theorem colOf_ok (m : Model) (n c : String) (h : colOf m n = .ok c) :
    ∃ f, getField m n = some f ∧ c = f.column := by
  unfold colOf at h
  cases hg : getField m n with
  | some f =>
    rw [hg] at h
    cases h
    exact ⟨f, rfl, rfl⟩
  | none => rw [hg] at h; exact Except.noConfusion h

theorem fieldsDict_some (m : Model) (k : String) (f : Field)
    (h : fieldsDict m k = some f) :
    f ∈ modelFields m ∧ (f.name = k ∨ f.attname = k) := by
  unfold fieldsDict at h
  cases hname : (modelFields m).find? (fun g => g.name == k) with
  | some g =>
    rw [hname] at h
    cases h
    exact ⟨List.mem_of_find?_eq_some hname,
      Or.inl (by simpa [beq_iff_eq] using List.find?_some hname)⟩
  | none =>
    rw [hname] at h
    exact ⟨List.mem_of_find?_eq_some h,
      Or.inr (by simpa [beq_iff_eq] using List.find?_some h)⟩

theorem wf_spec (m : Model) (h : wfB m = true) :
    ∀ f ∈ m.fields, ∀ g ∈ m.fields,
      (f.name = g.name → f = g) ∧ (f.attname = g.name → f = g)
        ∧ (f.column = g.column → f = g) := by
  intro f hf g hg
  rw [wfB, List.all_eq_true] at h
  have h1 := h f hf
  rw [List.all_eq_true] at h1
  have h2 := h1 g hg
  rw [Bool.and_eq_true, Bool.and_eq_true] at h2
  obtain ⟨⟨ha, hb⟩, hc⟩ := h2
  have resolve : ∀ (x y : String), ((x != y || f == g) = true) → x = y → f = g := by
    intro x y hxy he
    rw [Bool.or_eq_true] at hxy
    rcases hxy with hh | hh
    · exact absurd he (bne_iff_ne.mp hh)
    · exact beq_iff_eq.mp hh
  exact ⟨resolve _ _ ha, resolve _ _ hb, resolve _ _ hc⟩

theorem filterUpdateFields_mem (m : Model) (ex : List String) :
    ∀ (l res : List UpdField), filterUpdateFields m ex l = .ok res → ∀ uf ∈ res,
      uf ∈ l ∧ ex.contains uf.name = false
        ∧ ∃ f, fieldsDict m uf.name = some f
            ∧ f.autoNowAdd = false ∧ f.primaryKey = false := by
  intro l
  induction l with
  | nil =>
    intro res h uf hm
    cases h
    cases hm
  | cons x rest ih =>
    intro res h uf hm
    unfold filterUpdateFields at h
    split at h
    · have := ih res h uf hm
      exact ⟨List.mem_cons_of_mem x this.1, this.2⟩
    · rename_i hex
      split at h
      · exact Except.noConfusion h
      · rename_i f hd
        split at h
        · rename_i hfl
          split at h
          · exact Except.noConfusion h
          · rename_i res' hr
            cases h
            rw [Bool.and_eq_true, Bool.not_eq_true', Bool.not_eq_true'] at hfl
            rcases List.mem_cons.mp hm with he | hm'
            · subst he
              exact ⟨List.mem_cons_self uf rest, Bool.eq_false_iff.mpr hex,
                ⟨f, hd, hfl.1, hfl.2⟩⟩
            · have := ih res' hr uf hm'
              exact ⟨List.mem_cons_of_mem x this.1, this.2⟩
        · have := ih res h uf hm
          exact ⟨List.mem_cons_of_mem x this.1, this.2⟩

theorem filterUpdateFields_not_ok (m : Model) (ex : List String) (uf : UpdField)
    (hd : fieldsDict m uf.name = none) (hex : ex.contains uf.name = false) :
    ∀ (l res : List UpdField), uf ∈ l → filterUpdateFields m ex l ≠ .ok res := by
  intro l
  induction l with
  | nil =>
    intro res hm
    cases hm
  | cons x rest ih =>
    intro res hm h
    unfold filterUpdateFields at h
    rcases List.mem_cons.mp hm with he | hm'
    · subst he
      split at h
      · rename_i hcontains
        rw [hex] at hcontains
        exact Bool.noConfusion hcontains
      · split at h
        · exact Except.noConfusion h
        · rename_i f hdx
          rw [hd] at hdx
          exact Option.noConfusion hdx
    · split at h
      · exact ih res hm' h
      · split at h
        · exact Except.noConfusion h
        · split at h
          · split at h
            · exact Except.noConfusion h
            · rename_i res' hr
              exact ih res' hm' hr
          · exact ih res hm' h

theorem c2FieldOK_of_selected (m : Model) (hwf : wfB m = true) (uf : UpdField) (f : Field)
    (hd : fieldsDict m uf.name = some f) (hna : f.autoNowAdd = false)
    (hpk : f.primaryKey = false) : c2FieldOK m uf = true := by
  unfold c2FieldOK
  cases hg : getField m uf.name with
  | none => rfl
  | some g =>
    obtain ⟨hfmem, hforms⟩ := fieldsDict_some m uf.name f hd
    obtain ⟨hffields, hgen, hconc⟩ := modelFields_mem m f hfmem
    obtain ⟨hgfields, hgname⟩ := getField_some m uf.name g hg
    have hfg : f = g := by
      rcases hforms with hn | ha
      · exact (wf_spec m hwf f hffields g hgfields).1 (hn.trans hgname.symm)
      · exact (wf_spec m hwf f hffields g hgfields).2.1 (ha.trans hgname.symm)
    subst hfg
    show (!f.primaryKey && !f.autoNowAdd && !f.generated && f.concrete) = true
    rw [hpk, hna, hgen, hconc]
    rfl

theorem noUniqueOverlap_of_selected (m : Model) (hwf : wfB m = true)
    (ex uniq : List String) (l res : List UpdField)
    (hok : filterUpdateFields m (ex ++ uniq) l = .ok res) :
    noUniqueOverlap m uniq res = true := by
  unfold noUniqueOverlap
  cases hu : mapE (colOf m) uniq with
  | error e => rfl
  | ok ucols =>
    cases hr : mapE (fun uf => colOf m uf.name) res with
    | error e => rfl
    | ok rcols =>
      rw [List.all_eq_true]
      intro c hc
      rw [Bool.not_eq_true']
      by_contra hcontra
      have hcc : ucols.contains c = true := by
        revert hcontra
        cases ucols.contains c <;> simp
      have hcm : c ∈ ucols := (contains_iff_mem ucols c).mp hcc
      rcases mapE_mem (fun uf => colOf m uf.name) res rcols hr c hc with ⟨uf, hufres, hcol⟩
      rcases colOf_ok m uf.name c hcol with ⟨g, hg, hcg⟩
      rcases mapE_mem (colOf m) uniq ucols hu c hcm with ⟨u, huuniq, hucol⟩
      rcases colOf_ok m u c hucol with ⟨gu, hgu, hcgu⟩
      obtain ⟨hgfields, hgname⟩ := getField_some m uf.name g hg
      obtain ⟨hgufields, hguname⟩ := getField_some m u gu hgu
      have hggu : g = gu :=
        (wf_spec m hwf g hgfields gu hgufields).2.2 (by rw [← hcg, ← hcgu])
      have huname : uf.name = u := by rw [← hgname, hggu, hguname]
      have hprops := filterUpdateFields_mem m (ex ++ uniq) l res hok uf hufres
      have hmem2 : uf.name ∈ ex ++ uniq := List.mem_append.mpr (Or.inr (huname ▸ huuniq))
      have hcont2 := (contains_iff_mem (ex ++ uniq) uf.name).mpr hmem2
      rw [hprops.2.1] at hcont2
      exact Bool.false_ne_true hcont2

/-- C2: under Django's field-name well-formedness, the update-field set
computed for an upsert (whose exclusion list is always extended with the
uniqueness columns) and for a bulk update resolves to columns that are never
primary-key, auto-generated, auto-timestamp-on-create or non-concrete, and
the upsert set's columns are disjoint from the uniqueness columns. -/
theorem c2_theorem (m : Model) (tu tu2 : Option (List UpdField))
    (ex ex2 uniq : List String) (res res2 : List UpdField)
    (hwf : wfB m = true)
    (hup : getUpdateFields m tu (ex ++ uniq) = .ok res)
    (hupd : getUpdateFields m tu2 ex2 = .ok res2) :
    res.all (c2FieldOK m) = true ∧ noUniqueOverlap m uniq res = true
      ∧ res2.all (c2FieldOK m) = true := by
  have hall : ∀ (excl : List String) (tux : Option (List UpdField)) (r : List UpdField),
      getUpdateFields m tux excl = .ok r → r.all (c2FieldOK m) = true := by
    intro excl tux r hok
    have hok' : filterUpdateFields m excl
        (tux.getD ((modelFields m).map (fun f => ⟨f.attname, none⟩))) = .ok r := hok
    rw [List.all_eq_true]
    intro uf hm
    have hsel := filterUpdateFields_mem m excl _ r hok' uf hm
    rcases hsel.2.2 with ⟨f, hd, hna, hpk⟩
    exact c2FieldOK_of_selected m hwf uf f hd hna hpk
  have hup' : filterUpdateFields m (ex ++ uniq)
      (tu.getD ((modelFields m).map (fun f => ⟨f.attname, none⟩))) = .ok res := hup
  exact ⟨hall _ _ _ hup,
    noUniqueOverlap_of_selected m hwf ex uniq _ res hup',
    hall _ _ _ hupd⟩

/-- C2 witness: on the sample model (auto-increment pk `id`, plain `status`,
`auto_now_add` `created_at`, `auto_now` `updated_at`, generated `gen`), the
default request selects exactly `status` and `updated_at`, which pass every
exclusion check and avoid the unique column. -/
theorem c2_witness :
    wfB sampleModel = true
    ∧ getUpdateFields sampleModel none ([] ++ ["id"])
        = .ok [⟨"status", none⟩, ⟨"updated_at", none⟩]
    ∧ getUpdateFields sampleModel none []
        = .ok [⟨"status", none⟩, ⟨"updated_at", none⟩]
    ∧ ([⟨"status", none⟩, ⟨"updated_at", none⟩] : List UpdField).all
        (c2FieldOK sampleModel) = true
    ∧ noUniqueOverlap sampleModel ["id"] [⟨"status", none⟩, ⟨"updated_at", none⟩] = true :=
  ⟨by decide, by decide, by decide,
   (c2_theorem sampleModel none none [] [] ["id"]
      [⟨"status", none⟩, ⟨"updated_at", none⟩] [⟨"status", none⟩, ⟨"updated_at", none⟩]
      (by decide) (by decide) (by decide)).1,
   (c2_theorem sampleModel none none [] [] ["id"]
      [⟨"status", none⟩, ⟨"updated_at", none⟩] [⟨"status", none⟩, ⟨"updated_at", none⟩]
      (by decide) (by decide) (by decide)).2.1⟩

/-- C4 counterexample: a bulk update requesting the unknown field `bogus`
while also excluding it raises nothing at all — the exclusion check
short-circuits before the field-dict lookup — and the call compiles and
executes a statement. -/
theorem c4_counterexample :
    isOkE (updateRun sampleModel samplePrep [recA]
      (some [⟨"bogus", none⟩, ⟨"status", none⟩]) (some ["bogus"]) .no false sampleExec)
      = true := by
  decide

/-- C4 (amended): a requested update field name unknown to the model's field
dict makes the call fail synchronously with no statement executed — provided
the name is not also in the exclusion set (nor, for upsert, among the
uniqueness columns), since exclusion short-circuits the lookup; and a bulk
update on a table without a primary-key column fails synchronously with no
statement executed. The errors are Python `KeyError` /
`ValueError` / `AttributeError`, the spec's `ConfigurationError` category. -/
theorem c4_amended :
    (∀ (m : Model) (prep : Field → Val → Val) (clock : Nat → Val) (k : Nat)
       (objs : List Rec) (uniq : List String) (tuL : List UpdField)
       (ex : Option (List String)) (ret : Returning) (ign : Bool) (uf : UpdField),
        uf ∈ tuL → fieldsDict m uf.name = none →
        ((ex.getD [] ++ uniq).contains uf.name) = false →
        ∀ exec, isOkE (upsertRun m prep clock k objs uniq (some tuL) ex ret ign exec) = false)
    ∧ (∀ (m : Model) (prep : Field → Val → Val) (objs : List Rec) (tuL : List UpdField)
       (ex : Option (List String)) (ret : Returning) (ign : Bool) (uf : UpdField),
        uf ∈ tuL → fieldsDict m uf.name = none →
        ((ex.getD []).contains uf.name) = false →
        ∀ exec, isOkE (updateRun m prep objs (some tuL) ex ret ign exec) = false)
    ∧ (∀ (m : Model) (prep : Field → Val → Val) (objs : List Rec)
       (tu : Option (List UpdField)) (ex : Option (List String))
       (ret : Returning) (ign : Bool),
        m.pk = none →
        ∀ exec, isOkE (updateRun m prep objs tu ex ret ign exec) = false) := by
  refine ⟨?_, ?_, ?_⟩
  · intro m prep clock k objs uniq tuL ex ret ign uf hm hd hex exec
    unfold upsertRun
    split
    · rfl
    · rename_i updF hg
      exfalso
      have hflt : filterUpdateFields m ((ex.getD []) ++ uniq) tuL = .ok updF := hg
      exact filterUpdateFields_not_ok m ((ex.getD []) ++ uniq) uf hd hex tuL updF hm hflt
  · intro m prep objs tuL ex ret ign uf hm hd hex exec
    unfold updateRun
    split
    · rfl
    · rename_i updF hg
      exfalso
      have hflt : filterUpdateFields m (ex.getD []) tuL = .ok updF := hg
      exact filterUpdateFields_not_ok m (ex.getD []) uf hd hex tuL updF hm hflt
  · intro m prep objs tu ex ret ign hpk exec
    unfold updateRun
    split
    · rfl
    · split
      · rfl
      · split
        · rfl
        · split
          · rfl
          · rename_i pkf hpkf
            rw [hpk] at hpkf
            exact Option.noConfusion hpkf

/-- C4 witness: the unknown name `bogus`, requested and not excluded, makes
the sample upsert fail before execution; the sample table without a primary
key makes bulk update fail before execution. -/
theorem c4_witness :
    (⟨"bogus", none⟩ : UpdField) ∈ [(⟨"bogus", none⟩ : UpdField)]
    ∧ fieldsDict sampleModel "bogus" = none
    ∧ (((none : Option (List String)).getD [] ++ ["id"]).contains "bogus") = false
    ∧ isOkE (upsertRun sampleModel samplePrep sampleClock 0 [recA] ["id"]
        (some [⟨"bogus", none⟩]) none .no false sampleExec) = false
    ∧ sampleModelNoPk.pk = none
    ∧ isOkE (updateRun sampleModelNoPk samplePrep [recA] none none .no false sampleExec)
        = false :=
  ⟨by decide, by decide, by decide,
   c4_amended.1 sampleModel samplePrep sampleClock 0 [recA] ["id"] [⟨"bogus", none⟩]
     none .no false ⟨"bogus", none⟩ (by decide) (by decide) (by decide) sampleExec,
   by decide,
   c4_amended.2.2 sampleModelNoPk samplePrep [recA] none none .no false (by decide)
     sampleExec⟩

/-!
### Placeholder/argument parity of the compiled statements
-/

theorem NPH_appendL0 (a b : String) (n : Nat) (ha : pctFree a) (hb : NPH b n) :
    NPH (a ++ b) n :=
  NPH_congr _ _ _ (NPH_append a b 0 n (NPH_zero_of_pctFree a ha) hb) (Nat.zero_add n)

theorem NPH_appendR0 (a b : String) (n : Nat) (ha : NPH a n) (hb : pctFree b) :
    NPH (a ++ b) n :=
  NPH_congr _ _ _ (NPH_append a b n 0 ha (NPH_zero_of_pctFree b hb)) (Nat.add_zero n)

theorem enumFromK_snd_mem : ∀ (l : List α) (k : Nat), ∀ p ∈ enumFromK k l, p.2 ∈ l := by
  intro l
  induction l with
  | nil => intro k p hp; cases hp
  | cons x xs ih =>
    intro k p hp
    rcases List.mem_cons.mp hp with h | h
    · rw [h]; exact List.mem_cons_self x xs
    · exact List.mem_cons_of_mem x (ih (k + 1) p h)

theorem getFieldE_ok (m : Model) (n : String) (f : Field) (h : getFieldE m n = .ok f) :
    getField m n = some f := by
  unfold getFieldE at h
  cases hg : getField m n with
  | some g => rw [hg] at h; cases h; rfl
  | none => rw [hg] at h; exact Except.noConfusion h

theorem modelPctFree_spec (m : Model) (h : modelPctFree m = true) :
    pctFree m.dbTable ∧ (∀ f ∈ m.fields, pctFree f.column ∧ pctFree f.dbType)
      ∧ (∀ f, m.pk = some f → pctFree f.column) := by
  unfold modelPctFree at h
  rw [Bool.and_eq_true, Bool.and_eq_true] at h
  obtain ⟨⟨h1, h2⟩, h3⟩ := h
  refine ⟨(pctFreeB_iff _).mp h1, ?_, ?_⟩
  · intro f hf
    have hff := List.all_eq_true.mp h2 f hf
    rw [Bool.and_eq_true] at hff
    exact ⟨(pctFreeB_iff _).mp hff.1, (pctFreeB_iff _).mp hff.2⟩
  · intro f hpk
    rw [hpk] at h3
    exact (pctFreeB_iff _).mp h3

theorem assocUpdate_snd_pred {β : Type} (P : β → Prop) (k : String) (v : β) (hv : P v) :
    ∀ l : List (String × β), (∀ p ∈ l, P p.2) → ∀ p ∈ assocUpdate l k v, P p.2 := by
  intro l
  induction l with
  | nil =>
    intro _ p hp
    rcases List.mem_cons.mp hp with h | h
    · rw [h]; exact hv
    · cases h
  | cons kv rest ih =>
    intro hl p hp
    rcases kv with ⟨k', v'⟩
    by_cases hk : k' = k
    · rw [show assocUpdate ((k', v') :: rest) k v = (k, v) :: rest by simp [assocUpdate, hk]]
        at hp
      rcases List.mem_cons.mp hp with h | h
      · rw [h]; exact hv
      · exact hl p (List.mem_cons_of_mem _ h)
    · rw [show assocUpdate ((k', v') :: rest) k v = (k', v') :: assocUpdate rest k v by
          simp [assocUpdate, hk]] at hp
      rcases List.mem_cons.mp hp with h | h
      · rw [h]; exact hl (k', v') (List.mem_cons_self _ _)
      · exact ih (fun q hq => hl q (List.mem_cons_of_mem _ hq)) p h

theorem foldl_assocUpdate_pred {β γ : Type} (P : β → Prop) (g : γ → String) (v : γ → β) :
    ∀ (items : List γ) (acc : List (String × β)), (∀ p ∈ acc, P p.2) →
      (∀ it ∈ items, P (v it)) →
      ∀ p ∈ items.foldl (fun acc it => assocUpdate acc (g it) (v it)) acc, P p.2 := by
  intro items
  induction items with
  | nil => intro acc hacc _ p hp; exact hacc p hp
  | cons it rest ih =>
    intro acc hacc hv p hp
    exact ih (assocUpdate acc (g it) (v it))
      (assocUpdate_snd_pred P (g it) (v it) (hv it (List.mem_cons_self _ _)) acc hacc)
      (fun x hx => hv x (List.mem_cons_of_mem _ hx)) p hp

theorem foldl_exprUpdate_pred (P : String → Prop) :
    ∀ (pairs : List (UpdField × String)) (acc : List (String × String)),
      (∀ p ∈ acc, P p.2) →
      (∀ pr ∈ pairs, ∀ fr, pr.1.expression = some fr → P fr) →
      ∀ p ∈ pairs.foldl (fun acc pr =>
          match pr.1.expression with
          | some frag => assocUpdate acc pr.2 frag
          | none => acc) acc, P p.2 := by
  intro pairs
  induction pairs with
  | nil => intro acc hacc _ p hp; exact hacc p hp
  | cons pr rest ih =>
    intro acc hacc hexpr p hp
    rw [List.foldl_cons] at hp
    cases he : pr.1.expression with
    | some frag =>
      rw [he] at hp
      exact ih (assocUpdate acc pr.2 frag)
        (assocUpdate_snd_pred P pr.2 frag
          (hexpr pr (List.mem_cons_self _ _) frag he) acc hacc)
        (fun x hx fr hfr => hexpr x (List.mem_cons_of_mem _ hx) fr hfr) p hp
    | none =>
      rw [he] at hp
      exact ih acc hacc
        (fun x hx fr hfr => hexpr x (List.mem_cons_of_mem _ hx) fr hfr) p hp

theorem lookupA_getD_pred (P : String → Prop) (l : List (String × String)) (k : String)
    (hl : ∀ p ∈ l, P p.2) (hd : P "") : P ((lookupA l k).getD "") := by
  unfold lookupA
  cases hf : l.find? (fun p => p.1 == k) with
  | none => exact hd
  | some p => exact hl p (List.mem_of_find?_eq_some hf)

theorem updFields_expr_pctFree (m : Model) (tu : Option (List UpdField))
    (excl : List String) (res : List UpdField) (hu : updPctFree tu = true)
    (hok : getUpdateFields m tu excl = .ok res) :
    ∀ uf ∈ res, ∀ fr, uf.expression = some fr → pctFree fr := by
  intro uf hm fr hfr
  have hok' : filterUpdateFields m excl
      (tu.getD ((modelFields m).map (fun f => ⟨f.attname, none⟩))) = .ok res := hok
  have hsel := filterUpdateFields_mem m excl _ res hok' uf hm
  have hufin := hsel.1
  cases htu : tu with
  | some l =>
    rw [htu] at hufin
    have hl : uf ∈ l := hufin
    rw [htu] at hu
    have hu' : l.all (fun uf => pctFreeB (uf.expression.getD "")) = true := hu
    have hone := List.all_eq_true.mp hu' uf hl
    rw [hfr] at hone
    exact (pctFreeB_iff fr).mp hone
  | none =>
    rw [htu] at hufin
    have hl : uf ∈ (modelFields m).map (fun f => (⟨f.attname, none⟩ : UpdField)) := hufin
    rcases List.mem_map.mp hl with ⟨f, _, rfl⟩
    exact Option.noConfusion hfr

theorem colsOf_pctFree (m : Model) (hm2 : ∀ f ∈ m.fields, pctFree f.column)
    (names : List String) (cols : List String)
    (h : mapE (colOf m) names = .ok cols) : ∀ c ∈ cols, pctFree c := by
  intro c hc
  rcases mapE_mem (colOf m) names cols h c hc with ⟨n, _, hcol⟩
  rcases colOf_ok m n c hcol with ⟨f, hg, rfl⟩
  exact hm2 f (getField_some m n f hg).1

theorem updColsOf_pctFree (m : Model) (hm2 : ∀ f ∈ m.fields, pctFree f.column)
    (fields : List UpdField) (cols : List String)
    (h : mapE (fun uf => colOf m uf.name) fields = .ok cols) : ∀ c ∈ cols, pctFree c := by
  intro c hc
  rcases mapE_mem (fun uf => colOf m uf.name) fields cols h c hc with ⟨uf, _, hcol⟩
  rcases colOf_ok m uf.name c hcol with ⟨f, hg, rfl⟩
  exact hm2 f (getField_some m uf.name f hg).1

theorem withExprsOf_pctFree (aliasName : String) (fields : List UpdField)
    (cols : List String) (halias : pctFree aliasName)
    (hcols : ∀ c ∈ cols, pctFree c)
    (hexpr : ∀ uf ∈ fields, ∀ fr, uf.expression = some fr → pctFree fr) :
    ∀ p ∈ withExprsOf aliasName fields cols, pctFree p.2 := by
  unfold withExprsOf
  refine foldl_exprUpdate_pred pctFree (fields.zip cols) _ ?_ ?_
  · refine foldl_assocUpdate_pred pctFree (fun c => c)
      (fun c => aliasName ++ "." ++ quoteIdent c) cols []
      (fun p hp => absurd hp (by simp)) ?_
    intro c hc
    exact pctFree_append _ _ (pctFree_append _ _ halias (by decide))
      (pctFree_quoteIdent _ (hcols c hc))
  · intro pr hpr fr hfr
    exact hexpr pr.1 (List.of_mem_zip hpr).1 fr hfr

theorem setSqlOf_pctFree (cols : List String) (we : List (String × String))
    (hcols : ∀ c ∈ cols, pctFree c) (hwe : ∀ p ∈ we, pctFree p.2) :
    pctFree (setSqlOf cols we) := by
  unfold setSqlOf
  apply pctFree_joinSep ", " (by decide)
  intro s hs
  rcases List.mem_map.mp hs with ⟨c, hcm, rfl⟩
  exact pctFree_append _ _
    (pctFree_append _ _ (pctFree_quoteIdent _ (hcols c hcm)) (by decide))
    (lookupA_getD_pred pctFree we c hwe (by decide))

theorem ignoreSqlOf_pctFree (m : Model) (ig : Bool) (cols : List String)
    (we : List (String × String)) (hm1 : pctFree m.dbTable)
    (hcols : ∀ c ∈ cols, pctFree c) (hwe : ∀ p ∈ we, pctFree p.2) :
    pctFree (ignoreSqlOf m ig cols we) := by
  unfold ignoreSqlOf
  split
  · refine pctFree_append _ _ (pctFree_append _ _ (pctFree_append _ _
      (pctFree_append _ _ (by decide) ?_) (by decide)) ?_) (by decide)
    · apply pctFree_joinSep ", " (by decide)
      intro s hs
      rcases List.mem_map.mp hs with ⟨c, hcm, rfl⟩
      exact pctFree_append _ _ (pctFree_append _ _ (pctFree_quoteIdent _ hm1) (by decide))
        (pctFree_quoteIdent _ (hcols c hcm))
    · apply pctFree_joinSep ", " (by decide)
      intro s hs
      rcases List.mem_map.mp hs with ⟨p, hpm, rfl⟩
      exact hwe p hpm
  · decide

theorem getUpdateFieldsSql_pctFree (m : Model) (fields : List UpdField)
    (aliasName : String) (ig : Bool) (sw : String × String)
    (hm1 : pctFree m.dbTable) (hm2 : ∀ f ∈ m.fields, pctFree f.column)
    (halias : pctFree aliasName)
    (hexpr : ∀ uf ∈ fields, ∀ fr, uf.expression = some fr → pctFree fr)
    (h : getUpdateFieldsSql m fields aliasName ig = .ok sw) :
    pctFree sw.1 ∧ pctFree sw.2 := by
  unfold getUpdateFieldsSql at h
  split at h
  · exact Except.noConfusion h
  · rename_i cols hcols
    have hcpct : ∀ c ∈ cols, pctFree c := updColsOf_pctFree m hm2 fields cols hcols
    have hwe := withExprsOf_pctFree aliasName fields cols halias hcpct hexpr
    cases h
    exact ⟨setSqlOf_pctFree cols _ hcpct hwe, ignoreSqlOf_pctFree m ig cols _ hm1 hcpct hwe⟩

theorem onConflictSql_pctFree (cols : List String) (s w : String)
    (hs : pctFree s) (hw : pctFree w) : pctFree (onConflictSql cols s w) := by
  unfold onConflictSql
  split
  · decide
  · exact pctFree_append _ _ (pctFree_append _ _ (pctFree_append _ _ (by decide) hs)
      (by decide)) hw

theorem getReturningSql_pctFree (m : Model) (ret : Returning) (inc : Bool)
    (hm1 : pctFree m.dbTable) (hm2 : ∀ f ∈ m.fields, pctFree f.column)
    (hr : retPctFree ret = true) : pctFree (getReturningSql ret m inc) := by
  have hmain : ∀ cols : List String, (∀ c ∈ cols, pctFree c) →
      pctFree (if cols.isEmpty then ""
        else
          "RETURNING " ++
            (if inc then
              joinSep ", " (cols.map (fun c => quoteIdent m.dbTable ++ "." ++ quoteIdent c))
                ++ ", CASE WHEN xmax = 0 THEN " ++ sqLit "c" ++ " ELSE " ++ sqLit "u"
                ++ " END AS status_"
            else joinSep ", " (cols.map (fun c => quoteIdent m.dbTable ++ "." ++ quoteIdent c)))) := by
    intro cols hc
    have hjoin : pctFree
        (joinSep ", " (cols.map (fun c => quoteIdent m.dbTable ++ "." ++ quoteIdent c))) := by
      apply pctFree_joinSep ", " (by decide)
      intro s hs
      rcases List.mem_map.mp hs with ⟨c, hcm, rfl⟩
      exact pctFree_append _ _ (pctFree_append _ _ (pctFree_quoteIdent _ hm1) (by decide))
        (pctFree_quoteIdent _ (hc c hcm))
    split
    · decide
    · apply pctFree_append _ _ (by decide)
      split
      · exact pctFree_append _ _ (pctFree_append _ _ (pctFree_append _ _
          (pctFree_append _ _ (pctFree_append _ _ hjoin (by decide)) (by decide))
            (by decide)) (by decide)) (by decide)
      · exact hjoin
  cases ret with
  | no =>
    show pctFree ""
    decide
  | all =>
    refine hmain ((modelFields m).map (fun f => f.column)) ?_
    intro c hc
    rcases List.mem_map.mp hc with ⟨f, hf, rfl⟩
    exact (hm2 f (modelFields_mem m f hf).1)
  | cols cs =>
    refine hmain cs ?_
    intro c hc
    unfold retPctFree at hr
    exact (pctFreeB_iff _).mp (List.all_eq_true.mp hr c hc)

theorem upsertRowTemplate_NPH (allFields : List Field)
    (hdb : ∀ f ∈ allFields, pctFree f.dbType) (i : Nat) :
    NPH (upsertRowTemplate allFields i) allFields.length := by
  unfold upsertRowTemplate
  split
  · refine NPH_appendR0 _ _ _ (NPH_appendL0 _ _ _ (by decide) ?_) (by decide)
    have hcells : ∀ s ∈ allFields.map (fun f => "%s::" ++ f.dbType), NPH s 1 := by
      intro s hs
      rcases List.mem_map.mp hs with ⟨f, hf, rfl⟩
      exact NPH_cast f.dbType (hdb f hf)
    refine NPH_congr _ _ _ (NPH_joinSep 1 _ hcells) ?_
    rw [List.length_map, Nat.mul_one]
  · refine NPH_appendR0 _ _ _ (NPH_appendL0 _ _ _ (by decide) ?_) (by decide)
    have hcells : ∀ s ∈ allFields.map (fun _ => ("%s" : String)), NPH s 1 := by
      intro s hs
      rcases List.mem_map.mp hs with ⟨f, _, rfl⟩
      exact NPH_ph
    refine NPH_congr _ _ _ (NPH_joinSep 1 _ hcells) ?_
    rw [List.length_map, Nat.mul_one]

theorem valuesJoin_NPH (prep : Field → Val → Val) (objs : List Rec)
    (allFields : List Field) (hdb : ∀ f ∈ allFields, pctFree f.dbType) :
    NPH (joinSep ", " (getValuesForRows prep objs allFields).1)
      (objs.length * allFields.length) := by
  have hgroups : ∀ g ∈ (getValuesForRows prep objs allFields).1, NPH g allFields.length := by
    intro g hg
    have hg' : g ∈ (enumK objs).map (fun p => upsertRowTemplate allFields p.1) := hg
    rcases List.mem_map.mp hg' with ⟨p, _, rfl⟩
    exact upsertRowTemplate_NPH allFields hdb p.1
  refine NPH_congr _ _ _ (NPH_joinSep allFields.length _ hgroups) ?_
  have hlen : ((getValuesForRows prep objs allFields).1).length = objs.length := by
    show ((enumK objs).map _).length = _
    rw [List.length_map, enumK_length]
  rw [hlen]

theorem getValuesForRows_args_length (prep : Field → Val → Val) (objs : List Rec)
    (allFields : List Field) :
    (getValuesForRows prep objs allFields).2.length = objs.length * allFields.length := by
  have hrows : ∀ x ∈ objs.map (fun o => getValuesForRow prep o allFields),
      x.length = allFields.length := by
    intro x hx
    rcases List.mem_map.mp hx with ⟨o, _, rfl⟩
    show (allFields.map _).length = _
    rw [List.length_map]
  show (flattenL (objs.map (fun o => getValuesForRow prep o allFields))).length = _
  rw [flattenL_length_const allFields.length _ hrows, List.length_map]

theorem getUpsertSql_parity (m : Model) (prep : Field → Val → Val) (objs : List Rec)
    (uniqueFields : List String) (updF : List UpdField) (ret : Returning) (ign : Bool)
    (sql : String) (args : List Val)
    (hm : modelPctFree m = true)
    (hf : ∀ uf ∈ updF, ∀ fr, uf.expression = some fr → pctFree fr)
    (hr : retPctFree ret = true)
    (h : getUpsertSql m prep objs uniqueFields updF ret ign = .ok (sql, args)) :
    countPH sql.data = args.length := by
  obtain ⟨htable, hfields, _⟩ := modelPctFree_spec m hm
  simp only [getUpsertSql] at h
  split at h
  · exact Except.noConfusion h
  · rename_i uniqueDbCols huniq
    split at h
    · exact Except.noConfusion h
    · rename_i updateDbCols hupdc
      split at h
      · exact Except.noConfusion h
      · rename_i sw hsw
        injection h with h1
        injection h1 with hsql hargs2
        subst hsql
        subst hargs2
        have hswpct := getUpdateFieldsSql_pctFree m updF "EXCLUDED" ign sw htable
          (fun f hf' => (hfields f hf').1) (by decide) hf hsw
        have hucols : ∀ c ∈ uniqueDbCols, pctFree c :=
          colsOf_pctFree m (fun f hf' => (hfields f hf').1) uniqueFields uniqueDbCols huniq
        generalize hAF : (modelFields m).filter
            (fun f => uniqueFields.contains f.column || !f.isAutoField) = AF
        have hAFdb : ∀ f ∈ AF, pctFree f.dbType := by
          rw [← hAF]
          intro f hf'
          exact (hfields f (modelFields_mem m f (List.mem_of_mem_filter hf')).1).2
        have hAFcol : ∀ f ∈ AF, pctFree f.column := by
          rw [← hAF]
          intro f hf'
          exact (hfields f (modelFields_mem m f (List.mem_of_mem_filter hf')).1).1
        have hargs := getValuesForRows_args_length prep objs AF
        refine Eq.trans (NPH_count _ (objs.length * AF.length) ?_) hargs.symm
        have hAFN : pctFree (joinSep ", " ((AF.map (fun f => f.column)).map quoteIdent)) := by
          apply pctFree_joinSep ", " (by decide)
          intro s hs
          rcases List.mem_map.mp hs with ⟨c, hcm, rfl⟩
          rcases List.mem_map.mp hcm with ⟨fld, hfm, rfl⟩
          exact pctFree_quoteIdent _ (hAFcol fld hfm)
        have hufn : pctFree (joinSep ", " (uniqueDbCols.map quoteIdent)) := by
          apply pctFree_joinSep ", " (by decide)
          intro s hs
          rcases List.mem_map.mp hs with ⟨c, hcm, rfl⟩
          exact pctFree_quoteIdent _ (hucols c hcm)
        have hoc : pctFree (onConflictSql updateDbCols sw.1
            (if sw.2 ≠ "" then "WHERE " ++ sw.2 else sw.2)) := by
          refine onConflictSql_pctFree updateDbCols _ _ hswpct.1 ?_
          split
          · exact pctFree_append _ _ (by decide) hswpct.2
          · exact hswpct.2
        have hret : pctFree (getReturningSql ret m true) :=
          getReturningSql_pctFree m ret true htable (fun f hf' => (hfields f hf').1) hr
        refine NPH_appendR0 _ _ _
          (NPH_appendR0 _ _ _
            (NPH_appendR0 _ _ _
              (NPH_appendR0 _ _ _
                (NPH_appendR0 _ _ _
                  (NPH_appendR0 _ _ _
                    (NPH_appendL0 _ _ _ ?_ ?_)
                    (by decide))
                  hufn)
                (by decide))
              hoc)
            (by decide))
          hret
        · exact pctFree_append _ _ (pctFree_append _ _ (pctFree_append _ _
            (pctFree_append _ _ (pctFree_append _ _ (by decide) htable) (by decide)) hAFN)
            (by decide)) (by decide)
        · exact valuesJoin_NPH prep objs AF hAFdb

theorem updRowTemplate_NPH (dbTypes : List String) (hdb : ∀ t ∈ dbTypes, pctFree t)
    (rn : Nat) (row : List Val) :
    NPH (updRowTemplate dbTypes rn row) row.length := by
  unfold updRowTemplate
  refine NPH_appendR0 _ _ _ (NPH_appendL0 _ _ _ (by decide) ?_) (by decide)
  have hcells : ∀ s ∈ (enumK row).map (fun p =>
      if rn = 0 ∧ p.1 ≠ 0 then "%s::" ++ dbTypes.getD p.1 "" else "%s"), NPH s 1 := by
    intro s hs
    rcases List.mem_map.mp hs with ⟨p, _, rfl⟩
    by_cases hc : rn = 0 ∧ p.1 ≠ 0
    · rw [if_pos hc]
      exact NPH_cast _ (getD_pctFree dbTypes p.1 hdb)
    · rw [if_neg hc]
      exact NPH_ph
  refine NPH_congr _ _ _ (NPH_joinSep 1 _ hcells) ?_
  rw [List.length_map, Nat.mul_one, enumK_length]

theorem updateRun_parity (m : Model) (prep : Field → Val → Val) (objs : List Rec)
    (tu : Option (List UpdField)) (ex : Option (List String)) (ret : Returning)
    (ign : Bool) (exec : String → List Val → Option (List Row))
    (executed : List (String × List Val)) (res : Option (List Row))
    (hm : modelPctFree m = true) (hu : updPctFree tu = true) (hr : retPctFree ret = true)
    (h : updateRun m prep objs tu ex ret ign exec = .ok (executed, res)) :
    ∀ p ∈ executed, countPH p.1.data = p.2.length := by
  obtain ⟨htable, hfields, hpkcol⟩ := modelPctFree_spec m hm
  simp only [updateRun] at h
  split at h
  · exact Except.noConfusion h
  · rename_i updF hg
    split at h
    · exact Except.noConfusion h
    · rename_i cols hcols
      split at h
      · exact Except.noConfusion h
      · rename_i objs1 hsort
        split at h
        · exact Except.noConfusion h
        · rename_i pkf hpk
          split at h
          · exact Except.noConfusion h
          · rename_i rowValues hrows
            split at h
            · injection h with h1
              injection h1 with h2 h3
              subst h2
              exact fun p hp => absurd hp (by simp)
            · rename_i hne
              split at h
              · exact Except.noConfusion h
              · rename_i dbTypes hdbt
                split at h
                · exact Except.noConfusion h
                · rename_i vfCols hvf
                  split at h
                  · exact Except.noConfusion h
                  · rename_i sw hsw
                    injection h with h1
                    injection h1 with h2 h3
                    subst h2
                    intro p hp
                    rcases List.mem_cons.mp hp with he | he
                    swap
                    · cases he
                    subst he
                    have hrowlen : ∀ row ∈ rowValues,
                        row.length =
                          (pkf.attname :: updF.map (fun uf => uf.name)).length := by
                      intro row hrow
                      rcases mapE_mem _ objs1 rowValues hrows row hrow with ⟨o, _, hone⟩
                      exact mapE_ok_length _ _ _ hone
                    have hdbt_pct : ∀ t ∈ dbTypes, pctFree t := by
                      intro t ht
                      rcases mapE_mem _ _ dbTypes hdbt t ht with ⟨fname, _, hone⟩
                      cases hge : getFieldE m fname with
                      | error e => rw [hge] at hone; exact Except.noConfusion hone
                      | ok f =>
                        rw [hge] at hone
                        have hone' : (Except.ok f.dbType : Except PgError String)
                            = .ok t := hone
                        injection hone' with h4
                        subst h4
                        exact (hfields f
                          (getField_some m fname f (getFieldE_ok m fname f hge)).1).2
                    have hvf_pct : ∀ s ∈ vfCols, pctFree s := by
                      intro s hsm
                      rcases mapE_mem _ _ vfCols hvf s hsm with ⟨fname, _, hone⟩
                      cases hge : getFieldE m fname with
                      | error e => rw [hge] at hone; exact Except.noConfusion hone
                      | ok f =>
                        rw [hge] at hone
                        have hone' : (Except.ok (quoteIdent f.column) :
                            Except PgError String) = .ok s := hone
                        injection hone' with h4
                        subst h4
                        exact pctFree_quoteIdent _ (hfields f
                          (getField_some m fname f (getFieldE_ok m fname f hge)).1).1
                    have hswpct := getUpdateFieldsSql_pctFree m updF "new_values" ign sw
                      htable (fun f hf' => (hfields f hf').1) (by decide)
                      (updFields_expr_pctFree m tu (ex.getD []) updF hu hg) hsw
                    have hQt : pctFree (quoteIdent m.dbTable) :=
                      pctFree_quoteIdent _ htable
                    have hQpk : pctFree (quoteIdent pkf.column) :=
                      pctFree_quoteIdent _ (hpkcol pkf hpk)
                    have hVFC : pctFree (joinSep ", " vfCols) :=
                      pctFree_joinSep ", " (by decide) vfCols hvf_pct
                    have hIGN : pctFree (if sw.2 ≠ "" then "AND " ++ sw.2 else sw.2) := by
                      split
                      · exact pctFree_append _ _ (by decide) hswpct.2
                      · exact hswpct.2
                    have hRET : pctFree (getReturningSql ret m false) :=
                      getReturningSql_pctFree m ret false htable
                        (fun f hf' => (hfields f hf').1) hr
                    have hVS : NPH
                        (joinSep ", " ((enumK rowValues).map
                          (fun p => updRowTemplate dbTypes p.1 p.2)))
                        (rowValues.length *
                          (pkf.attname :: updF.map (fun uf => uf.name)).length) := by
                      have hgroups : ∀ g ∈ (enumK rowValues).map
                          (fun p => updRowTemplate dbTypes p.1 p.2),
                          NPH g (pkf.attname :: updF.map (fun uf => uf.name)).length := by
                        intro g hgm
                        rcases List.mem_map.mp hgm with ⟨q, hqm, rfl⟩
                        have hq2 : q.2 ∈ rowValues := enumFromK_snd_mem rowValues 0 q hqm
                        have hh := updRowTemplate_NPH dbTypes hdbt_pct q.1 q.2
                        rw [hrowlen q.2 hq2] at hh
                        exact hh
                      refine NPH_congr _ _ _ (NPH_joinSep _ _ hgroups) ?_
                      rw [List.length_map, enumK_length]
                    have hplen : (flattenL rowValues).length =
                        rowValues.length *
                          (pkf.attname :: updF.map (fun uf => uf.name)).length :=
                      flattenL_length_const _ rowValues hrowlen
                    refine Eq.trans (NPH_count _ (rowValues.length *
                      (pkf.attname :: updF.map (fun uf => uf.name)).length) ?_) hplen.symm
                    refine NPH_appendR0 _ _ _
                      (NPH_appendR0 _ _ _
                        (NPH_appendR0 _ _ _
                          (NPH_appendR0 _ _ _
                            (NPH_appendR0 _ _ _
                              (NPH_appendR0 _ _ _
                                (NPH_appendR0 _ _ _
                                  (NPH_appendR0 _ _ _
                                    (NPH_appendR0 _ _ _
                                      (NPH_appendR0 _ _ _
                                        (NPH_appendR0 _ _ _
                                          (NPH_appendR0 _ _ _
                                            (NPH_appendL0 _ _ _ ?_ hVS)
                                            (by decide))
                                          hVFC)
                                        (by decide))
                                      hQt)
                                    (by decide))
                                  hQpk)
                                (by decide))
                              hQpk)
                            (by decide))
                          hIGN)
                        (by decide))
                      hRET
                    exact pctFree_append _ _ (pctFree_append _ _ (pctFree_append _ _
                      (pctFree_append _ _ (by decide) hQt) (by decide)) hswpct.1)
                      (by decide)

/-- C7: for every statement either compiler hands to the execution layer,
the number of `%s` placeholders in the SQL text equals the length of the
positional argument list, whenever the model's identifier/type texts, the
compiled expression fragments and the requested returning columns are free
of the placeholder marker. -/
theorem c7_theorem (m : Model) (prep : Field → Val → Val) (clock : Nat → Val) (k : Nat)
    (objs : List Rec) (uniq : List String) (tu : Option (List UpdField))
    (ex : Option (List String)) (ret : Returning) (ign : Bool)
    (exec : String → List Val → Option (List Row))
    (hm : modelPctFree m = true) (hu : updPctFree tu = true) (hr : retPctFree ret = true) :
    parityB (upsertRun m prep clock k objs uniq tu ex ret ign exec) = true
    ∧ parityB (updateRun m prep objs tu ex ret ign exec) = true := by
  constructor
  · unfold upsertRun
    split
    · rfl
    · rename_i updF hg
      split
      · rfl
      · split
        · rfl
        · rename_i sa hsa
          show ([(sa.1, prepSqlArgs sa.2)].all
            (fun p => countPH p.1.data == p.2.length)) = true
          have hok : getUpsertSql m prep
              (sortByUniqueFields m prep ((fillAutoFields m clock k objs).1) uniq)
              uniq updF ret ign = .ok (sa.1, sa.2) := hsa
          have hpar := getUpsertSql_parity m prep
            (sortByUniqueFields m prep ((fillAutoFields m clock k objs).1) uniq)
            uniq updF ret ign sa.1 sa.2 hm
            (updFields_expr_pctFree m tu ((ex.getD []) ++ uniq) updF hu hg) hr hok
          simp [List.all, prepSqlArgs, hpar]
  · cases hres : updateRun m prep objs tu ex ret ign exec with
    | error e => rfl
    | ok pr =>
      show pr.1.all (fun p => countPH p.1.data == p.2.length) = true
      rw [List.all_eq_true]
      intro p hp
      have hall := updateRun_parity m prep objs tu ex ret ign exec pr.1 pr.2
        hm hu hr (by rw [hres])
      simp [hall p hp]

/-- C7 witness: a concrete two-record upsert and bulk update on the sample
model — whose identifiers and types contain no placeholder marker — compile
with matching placeholder and argument counts. -/
theorem c7_witness :
    modelPctFree sampleModel = true
    ∧ updPctFree (none : Option (List UpdField)) = true
    ∧ retPctFree Returning.all = true
    ∧ parityB (upsertRun sampleModel samplePrep sampleClock 0 [recA, recB] ["id"]
        none none .all false sampleExec) = true
    ∧ parityB (updateRun sampleModel samplePrep [recA, recB] none none .all false
        sampleExec) = true :=
  ⟨by decide, by decide, by decide,
   (c7_theorem sampleModel samplePrep sampleClock 0 [recA, recB] ["id"] none none
      .all false sampleExec (by decide) (by decide) (by decide)).1,
   (c7_theorem sampleModel samplePrep sampleClock 0 [recA, recB] ["id"] none none
      .all false sampleExec (by decide) (by decide) (by decide)).2⟩

end PgBulk
